import Mathlib

/-!
# marzipan: correlation and dispatch engine

A shallow embedding of `marzipan.go` and `types.go`.

* Go maps are total functions into `Option` (`activeRequests`) or into lists
  (`subs`, whose absent keys read as the nil slice).
* Channels live in a heap `List Chan`; a channel value is its index in the heap,
  `make` appends a new channel.  An index outside the heap behaves like the nil
  channel: a send on it never completes.
* A runtime panic of a pure method is the value `none`.
* `select` with two communication cases takes the scheduler's preference as an
  explicit argument.
* Go's `int` is taken to be 64 bits wide and wraps around on overflow.
-/

namespace Marzipan

/-! ## types.go -/

/-- Field name constant `Action`. -/
def Action : String := "Action"

/-- Field name constant `CommandType`. -/
def CommandType : String := "CommandType"

/-- Field name constant `MobileInternalIndex`. -/
def MobileInternalIndex : String := "MobileInternalIndex"

/-- The `Meta` struct of types.go. -/
structure Meta where
  MII : String
  CT : String
  ACT : String
  deriving DecidableEq, Repr

/-- Method `(*Meta).SetMobileInternalIndex`. -/
def Meta.SetMobileInternalIndex (m : Meta) (mii : String) : Meta := { m with MII := mii }

/-- The `DeviceValue` struct. -/
structure DeviceValue where
  Name : String
  Value : String
  deriving DecidableEq, Repr

/-- The `Device` struct; Go maps with string keys are association lists here. -/
structure Device where
  Data : List (String × String)
  DeviceValues : List (String × DeviceValue)
  deriving DecidableEq, Repr

/-- The payload type `map[string]Device`. -/
abbrev Devices := List (String × Device)

/-- The `Request` interface; its implementation in the repository is `*Meta`. -/
abbrev Request := Meta

/-- The `Response` interface, closed over the two concrete types that
`genericResponse.Response` builds. -/
inductive Response
  | DeviceList (m : Meta) (Devices : Devices)
  | DynamicIndexUpdated (m : Meta) (Devices : Devices)
  deriving DecidableEq, Repr

/-- The embedded `Meta` of a response. -/
def Response.meta : Response → Meta
  | .DeviceList m _ => m
  | .DynamicIndexUpdated m _ => m

/-- Method `MobileInternalIndex()` promoted from the embedded `Meta`. -/
def Response.MobileInternalIndex (r : Response) : String := r.meta.MII

/-- Method `CommandType()` promoted from the embedded `Meta`. -/
def Response.CommandType (r : Response) : String := r.meta.CT

/-- Method `Action()` promoted from the embedded `Meta`. -/
def Response.Action (r : Response) : String := r.meta.ACT

/-! ## Frame codec (`genericResponse`) -/

/-- A `json.RawMessage` holding one well-formed JSON value, classified by its kind.
Composite values keep their source text. -/
inductive RawMessage
  | null
  | bool (b : Bool)
  | number (lit : String)
  | string (s : String)
  | array (src : String)
  | object (src : String)
  deriving DecidableEq, Repr

/-- The errors the package builds. -/
inductive Error
  | unknownKey (k : String)
  | unsupportedCommandType (commandType : String)
  | json (msg : String)
  | clientClosed
  deriving DecidableEq, Repr

/-- The type `genericResponse = map[string]*json.RawMessage`: the outer `Option` is key
presence, the inner one is the pointer (`none` is the nil pointer). -/
abbrev genericResponse := String → Option (Option RawMessage)

/-- The value left in a `string` variable, initially empty, by `json.Unmarshal(raw, &s)`:
a JSON string is stored, `null` is a no-op, any other kind is a type error that leaves the
variable untouched. -/
def jsonUnmarshalString : RawMessage → String
  | .string s => s
  | _ => ""

/-- Method `genericResponse.string`.  The result `none` is the nil-pointer panic of `*raw`. -/
def genericResponse.string (r : genericResponse) (k : String) : Option String :=
  match r k with
  | none => some ""
  | some none => none
  | some (some raw) => some (jsonUnmarshalString raw)

/-- Method `genericResponse.Meta`; the fields are evaluated in source order. -/
def genericResponse.Meta (r : genericResponse) : Option Meta :=
  match r.string Action with
  | none => none
  | some act =>
    match r.string MobileInternalIndex with
    | none => none
    | some mii =>
      match r.string CommandType with
      | none => none
      | some ct => some { MII := mii, CT := ct, ACT := act }

/-- Method `genericResponse.unmarshal` at the type of the `Devices` field.  The argument `dec`
is `json.Unmarshal` into an empty `map[string]Device`: the map it leaves and its error. -/
def genericResponse.unmarshal (dec : RawMessage → Devices × Option Error)
    (r : genericResponse) (k : String) : Option (Devices × Option Error) :=
  match r k with
  | none => some ([], some (Error.unknownKey k))
  | some none => none
  | some (some raw) => some (dec raw)

/-- Method `genericResponse.Response`: the returned pair `(Response, error)`, or `none` on a
panic. -/
def genericResponse.Response (dec : RawMessage → Devices × Option Error)
    (r : genericResponse) : Option (Option Response × Option Error) :=
  match r.string CommandType with
  | none => none
  | some commandType =>
    if commandType = "DeviceList" then
      match r.Meta with
      | none => none
      | some m =>
        match r.unmarshal dec "Devices" with
        | none => none
        | some (devs, err) => some (some (Response.DeviceList m devs), err)
    else if commandType = "DynamicIndexUpdated" then
      match r.Meta with
      | none => none
      | some m =>
        match r.unmarshal dec "Devices" with
        | none => none
        | some (devs, err) => some (some (Response.DynamicIndexUpdated m devs), err)
    else
      some (none, some (Error.unsupportedCommandType commandType))

/-! ## Channels -/

/-- A buffered `chan Response`: capacity, unread frames, and the history of every frame
ever sent on it. -/
structure Chan where
  cap : Nat
  buf : List Response
  written : List Response
  deriving DecidableEq, Repr

/-- The result of `make(chan Response, n)`. -/
def Chan.make (n : Nat) : Chan := { cap := n, buf := [], written := [] }

/-- The channel after a send completed. -/
def Chan.push (c : Chan) (r : Response) : Chan :=
  { c with buf := c.buf ++ [r], written := c.written ++ [r] }

/-- The blocking send `ch <- r`; `none` when the send cannot complete (buffer full, or no
such channel). -/
def send (chans : List Chan) (h : Nat) (r : Response) : Option (List Chan) :=
  match chans[h]? with
  | none => none
  | some c => if c.buf.length < c.cap then some (chans.set h (c.push r)) else none

/-- The statement `select { case ch <- r: default: }`. -/
def trySend (chans : List Chan) (h : Nat) (r : Response) : List Chan :=
  match send chans h r with
  | some chans1 => chans1
  | none => chans

/-- A receive `<-ch` by the holder of the read side, when a frame is pending. -/
def recv (chans : List Chan) (h : Nat) : List Chan :=
  match chans[h]? with
  | none => chans
  | some c => chans.set h { c with buf := c.buf.tail }

/-! ## Client -/

/-- The two cases of the `select` statements in `Do` and `readLoop`. -/
inductive Branch
  | comm
  | closing
  deriving DecidableEq, Repr

/-- Go's `select` over one send case and `<-c.closing`: a case can be taken only when it is
ready, the scheduler picks among ready cases, and the statement blocks (`none`) when no case
is ready. -/
def select (peerReceiving closed : Bool) (prefer : Branch) : Option Branch :=
  match peerReceiving, closed with
  | true, true => some prefer
  | true, false => some Branch.comm
  | false, true => some Branch.closing
  | false, false => none

/-- The `request` struct. -/
structure request where
  MobileInternalIndex : String
  Request : Request
  ResponseC : Nat
  deriving DecidableEq, Repr

/-- The `Client` struct, extended with what its goroutines and collaborators hold: the
local table of `run`, the channels, the transport log and whether each loop is running. -/
structure Client where
  /-- Field `c.idx`. -/
  idx : Int
  /-- Whether `c.closing` has been closed. -/
  closing : Bool
  /-- Field `c.subs`. -/
  subs : String → List Nat
  /-- Local variable `activeRequests` of `run`. -/
  activeRequests : String → Option Nat
  /-- Every channel created by `make`. -/
  chans : List Chan
  /-- How many times `c.conn.Close()` was called. -/
  connCloses : Nat
  /-- Every `c.conn.WriteJSON` call, with whether it succeeded. -/
  writes : List (Request × Bool)
  /-- Whether the `run` goroutine is in its loop. -/
  runLive : Bool
  /-- Whether the `readLoop` goroutine is in its loop. -/
  readLive : Bool

/-- The client returned by `NewClient` after a successful dial. -/
def NewClient : Client :=
  { idx := 0, closing := false, subs := fun _ => [], activeRequests := fun _ => none,
    chans := [], connCloses := 0, writes := [], runLive := true, readLive := true }

/-- Width of Go's `int`. -/
def intSize : Nat := 64

/-- Two's-complement wrap-around of `int` arithmetic. -/
def wrapInt (x : Int) : Int := (x + 2 ^ (intSize - 1)) % 2 ^ intSize - 2 ^ (intSize - 1)

/-- Decimal digit character. -/
def digitChar (d : Nat) : Char := Char.ofNat (48 + d)

/-- Decimal digits of `n`, most significant first; `fuel` bounds the number of digits. -/
def natDigits : Nat → Nat → List Char
  | 0, _ => []
  | fuel + 1, n => if n < 10 then [digitChar n] else natDigits fuel (n / 10) ++ [digitChar (n % 10)]

/-- The function `strconv.Itoa`. -/
def Itoa : Int → String
  | Int.ofNat n => String.mk (natDigits (n + 1) n)
  | Int.negSucc n => String.mk ('-' :: natDigits (n + 2) (n + 1))

/-- How `Close` ends. -/
inductive CloseResult
  | returned (s : Client)
  | panicked (s : Client)

/-- Method `Client.Close`: `c.conn.Close()`, then `close(c.closing)`, which panics on a
closed channel, then `c.wg.Wait()`, which returns once both loops have seen the signal. -/
def Close (s : Client) : CloseResult :=
  let s1 := { s with connCloses := s.connCloses + 1 }
  if s1.closing then CloseResult.panicked s1
  else CloseResult.returned { s1 with closing := true, runLive := false, readLive := false }

/-- One call of `Client.Do`, up to and including its `select`. -/
structure DoCall where
  /-- The client after `c.idx++` and `make(chan Response, 1)`. -/
  state : Client
  /-- The value of the variable `mii`. -/
  mii : String
  /-- The record `req`. -/
  req : request
  /-- The `select` case taken; `none` when the call blocks. -/
  branch : Option Branch

/-- Method `Client.Do` (lines 89-104). -/
def Do (s : Client) (r : Request) (prefer : Branch) : DoCall :=
  let idx := wrapInt (s.idx + 1)
  let mii := Itoa idx
  let r1 := r.SetMobileInternalIndex mii
  let req : request := { MobileInternalIndex := mii, Request := r1, ResponseC := s.chans.length }
  { state := { s with idx := idx, chans := s.chans ++ [Chan.make 1] },
    mii := mii,
    req := req,
    branch := select s.runLive s.closing prefer }

/-- The values `Do` returns: token, response handle, error. -/
def DoCall.result (d : DoCall) : Option (String × Option Nat × Option Error) :=
  match d.branch with
  | some Branch.comm => some (d.req.MobileInternalIndex, some d.req.ResponseC, none)
  | some Branch.closing => some ("", none, some Error.clientClosed)
  | none => none

/-- The request handed to `run` over `c.requests`, if any. -/
def DoCall.handedOff (d : DoCall) : Option request :=
  match d.branch with
  | some Branch.comm => some d.req
  | _ => none

/-- Method `Client.Subscribe`: the new client and the returned channel. -/
def Subscribe (s : Client) (ct : String) : Client × Nat :=
  let sub := s.chans.length
  ({ s with chans := s.chans ++ [Chan.make 10],
            subs := Function.update s.subs ct (s.subs ct ++ [sub]) }, sub)

/-- Line 144 of `run`: `activeRequests[r.MobileInternalIndex] = r.ResponseC`. -/
def register (s : Client) (req : request) : Client :=
  let table := Function.update s.activeRequests req.MobileInternalIndex (some req.ResponseC)
  { s with activeRequests := table }

/-- Lines 145-149 of `run`: the transport write, whose failure is only logged. -/
def connWriteJSON (s : Client) (req : request) (writeOk : Bool) : Client :=
  { s with writes := s.writes ++ [(req.Request, writeOk)] }

/-- The case `r := <-c.requests` of `run`. -/
def runRequest (s : Client) (req : request) (writeOk : Bool) : Client :=
  connWriteJSON (register s req) req writeOk

/-- Lines 151-155 of `run`: correlation.  The result is `none` when `rc <- r` blocks. -/
def resolve (s : Client) (r : Response) : Option Client :=
  let mii := r.MobileInternalIndex
  match s.activeRequests mii with
  | some rc =>
    match send s.chans rc r with
    | some chans1 =>
      some { s with chans := chans1, activeRequests := Function.update s.activeRequests mii none }
    | none => none
  | none => some s

/-- Lines 156-165 of `run`: fan-out to the subscribers of the frame's category. -/
def fanout (s : Client) (r : Response) : Client :=
  let ct := r.CommandType
  let subs := s.subs ct
  { s with chans := subs.foldl (fun chans sub => trySend chans sub r) s.chans }

/-- The case `r := <-c.responses` of `run`. -/
def runResponse (s : Client) (r : Response) : Option Client :=
  match resolve s r with
  | some s1 => some (fanout s1 r)
  | none => none

/-- The communication that `run` selects in one iteration of its loop. -/
inductive RunCase
  | closing
  | requests (r : request) (writeOk : Bool)
  | responses (r : Response)

/-- One iteration of the loop of `run`; the case `<-c.closing` returns. -/
def run (s : Client) : RunCase → Option Client
  | RunCase.closing => some { s with runLive := false }
  | RunCase.requests r writeOk => some (runRequest s r writeOk)
  | RunCase.responses r => runResponse s r

/-- What `c.conn.ReadJSON(&r)` produced. -/
inductive ReadJSON
  | failed (msg : String)
  | decoded (r : genericResponse)

/-- How one iteration of `readLoop` ends. -/
inductive ReaderStep
  | stopped
  | skipped
  | forwarded (r : Response)
  | blocked
  | panicked
  deriving DecidableEq, Repr

/-- One iteration of `readLoop`. -/
def readLoop (dec : RawMessage → Devices × Option Error) (runReceiving closed : Bool)
    (prefer : Branch) : ReadJSON → ReaderStep
  | ReadJSON.failed _ => ReaderStep.stopped
  | ReadJSON.decoded r =>
    match r.Response dec with
    | none => ReaderStep.panicked
    | some (_, some _) => ReaderStep.skipped
    | some (none, none) => ReaderStep.panicked
    | some (some response, none) =>
      match select runReceiving closed prefer with
      | some Branch.comm => ReaderStep.forwarded response
      | some Branch.closing => ReaderStep.stopped
      | none => ReaderStep.blocked

/-- One message arriving on the connection: the reader iteration and, when the frame is
forwarded, the dispatch step that consumes it.  The result is `none` when a goroutine
panics or blocks for good. -/
def inbound (dec : RawMessage → Devices × Option Error) (s : Client) (prefer : Branch)
    (m : ReadJSON) : Option Client :=
  if s.readLive then
    match readLoop dec s.runLive s.closing prefer m with
    | ReaderStep.stopped => some { s with readLive := false }
    | ReaderStep.skipped => some s
    | ReaderStep.forwarded r => run s (RunCase.responses r)
    | ReaderStep.blocked => none
    | ReaderStep.panicked => none
  else some s

/-- A run of messages arriving on the connection. -/
def inboundAll (dec : RawMessage → Devices × Option Error) (prefer : Branch) :
    Client → List ReadJSON → Option Client
  | s, [] => some s
  | s, m :: ms =>
    match inbound dec s prefer m with
    | some s1 => inboundAll dec prefer s1 ms
    | none => none

/-- What can happen to a client. -/
inductive Event
  | callDo (r : Request) (prefer : Branch) (writeOk : Bool)
  | frame (r : Response)
  | subscribe (ct : String)
  | recv (h : Nat)
  | close
  deriving DecidableEq, Repr

/-- One event.  The result is `none` when `run` blocks in `rc <- r` or `Close` panics. -/
def step (s : Client) : Event → Option Client
  | Event.callDo r prefer writeOk =>
    let d := Do s r prefer
    match d.handedOff with
    | some req => run d.state (RunCase.requests req writeOk)
    | none => some d.state
  | Event.frame r => if s.runLive then run s (RunCase.responses r) else some s
  | Event.subscribe ct => some (Subscribe s ct).1
  | Event.recv h => some { s with chans := recv s.chans h }
  | Event.close =>
    match Close s with
    | CloseResult.returned s1 => some s1
    | CloseResult.panicked _ => none

/-- A history of events. -/
def exec : Client → List Event → Option Client
  | s, [] => some s
  | s, e :: es =>
    match step s e with
    | some s1 => exec s1 es
    | none => none

/-- The effect of a non-blocking send on the channel it addresses. -/
def Chan.deliver (c : Chan) (r : Response) : Chan :=
  if c.buf.length < c.cap then c.push r else c

/-- The frame that the case `r := <-c.responses` of `run` consumes at an event, if any. -/
def consumed (s : Client) : Event → List Response
  | Event.frame r => if s.runLive then [r] else []
  | _ => []

/-- The frames consumed by the case `r := <-c.responses` of `run` in a history. -/
def dispatched : Client → List Event → List Response
  | _, [] => []
  | s, e :: es =>
    consumed s e ++
    (match step s e with
      | some s1 => dispatched s1 es
      | none => [])

/-- Shape of the routing state that `Do`, `Subscribe` and `run` maintain: a pending
correlation handle is a capacity-1 channel that was never written, no two tokens share a
handle, subscription handles are capacity-10 channels, and a subscription handle occurs once
in the registry. -/
structure Inv (s : Client) : Prop where
  reg : ∀ t h, s.activeRequests t = some h → s.chans[h]? = some (Chan.make 1)
  inj : ∀ t1 t2 h, s.activeRequests t1 = some h → s.activeRequests t2 = some h → t1 = t2
  sub : ∀ ct h, h ∈ s.subs ct → ∃ c, s.chans[h]? = some c ∧ c.cap = 10
  nodup : ∀ ct, (s.subs ct).Nodup
  disj : ∀ ct1 ct2 h, h ∈ s.subs ct1 → h ∈ s.subs ct2 → ct1 = ct2

/-- The effect of one event, taken in state `s`, on a subscription channel `h` of category
`C` whose value is `c`: a dispatched frame of category `C` is delivered without blocking, a
receive on `h` removes the oldest unread frame, anything else leaves the channel alone. -/
def subEffect (s : Client) (C : String) (h : Nat) (c : Chan) : Event → Chan
  | Event.frame r => if s.runLive = true ∧ r.CommandType = C then c.deliver r else c
  | Event.recv k => if k = h then { c with buf := c.buf.tail } else c
  | _ => c

/-- The frames of category `C` in a list of frames. -/
def ofCategory (C : String) (fs : List Response) : List Response :=
  fs.filter (fun f => decide (f.CommandType = C))

/-- What is known of a channel `h` created by `Do` for token `t`: it has capacity 1 and
either it was never written and the table holds it under no token but `t`, or it was written
exactly one frame, carrying token `t`, and the table no longer holds it. -/
def Tracked (s : Client) (h : Nat) (t : String) : Prop :=
  ∃ c, s.chans[h]? = some c ∧ c.cap = 1 ∧
    ((c.written = [] ∧ ∀ t1, s.activeRequests t1 = some h → t1 = t) ∨
     (∃ f, c.written = [f] ∧ f.MobileInternalIndex = t ∧ ∀ t1, s.activeRequests t1 ≠ some h))

/-- The tokens (values of the variable `mii`) allocated by the calls of `Do` in a history,
in call order; calls that end with the client-closed error are included. -/
def allocated : Client → List Event → List String
  | _, [] => []
  | s, e :: es =>
    (match e with
      | Event.callDo r prefer _ => [(Do s r prefer).mii]
      | _ => []) ++
    (match step s e with
      | some s1 => allocated s1 es
      | none => [])

/-- Value of a string of decimal digits; the reading direction of `natDigits`. -/
def parseDigits (cs : List Char) : Nat :=
  cs.foldl (fun acc c => acc * 10 + (c.toNat - 48)) 0

/-- Value of a decimal numeral with an optional leading minus sign; the reading direction
of `Itoa`. -/
def parseInt (str : String) : Int :=
  match str.data with
  | '-' :: cs => - (parseDigits cs : Int)
  | cs => (parseDigits cs : Int)

/-! ## Concrete inputs -/

/-- A history of `n` accepted calls of `Do`. -/
def doCalls (n : Nat) : List Event :=
  List.replicate n (Event.callDo { MII := "", CT := "DeviceList", ACT := "" } Branch.comm true)

/-- The client after one `Close`. -/
def closedClient : Client :=
  { NewClient with connCloses := 1, closing := true, runLive := false, readLive := false }

/-- The client after the panic of a second `Close`. -/
def reclosedClient : Client :=
  { NewClient with connCloses := 2, closing := true, runLive := false, readLive := false }

/-- The field map decoded from the JSON object whose only member is `CommandType` with the
value `null`. -/
def nullCommandType : genericResponse :=
  fun k => if k = "CommandType" then some none else none

/-- The field map decoded from a frame of the unregistered category `Zeta`. -/
def zetaFrame : genericResponse :=
  fun k => if k = "CommandType" then some (some (RawMessage.string "Zeta")) else none

/-- A decoder for the `Devices` field that accepts every value as the empty map. -/
def emptyDevices : RawMessage → Devices × Option Error := fun _ => ([], none)

/-- A request as built by `NewDeviceListRequest`. -/
def deviceListRequest : Request := { MII := "", CT := "DeviceList", ACT := "" }

/-- A DeviceList frame answering token 1. -/
def frameA : Response := Response.DeviceList { MII := "1", CT := "DeviceList", ACT := "" } []

/-- The field map decoded from a DeviceList frame that answers token 1 with an empty device
object. -/
def deviceListFrame : genericResponse :=
  fun k =>
    if k = "CommandType" then some (some (RawMessage.string "DeviceList"))
    else if k = "MobileInternalIndex" then some (some (RawMessage.string "1"))
    else if k = "Devices" then some (some (RawMessage.object "{}"))
    else none

/-- A new client after one accepted `Do`, whose request was written. -/
def pendingClient : Client :=
  runRequest (Do NewClient deviceListRequest Branch.comm).state
    (Do NewClient deviceListRequest Branch.comm).req true

/-- A new client after `Subscribe("DeviceList")`. -/
def subscribedClient : Client := (Subscribe NewClient "DeviceList").1

/-! ## Frame codec -/

theorem string_of_absent (g : genericResponse) (k : String) (h : g k = none) :
    g.string k = some "" := by
  simp [genericResponse.string, h]

theorem string_of_string (g : genericResponse) (k v : String)
    (h : g k = some (some (RawMessage.string v))) : g.string k = some v := by
  simp [genericResponse.string, h, jsonUnmarshalString]

theorem response_unsupported (dec : RawMessage → Devices × Option Error) (g : genericResponse)
    (ct : String) (hs : g.string CommandType = some ct) (h1 : ct ≠ "DeviceList")
    (h2 : ct ≠ "DynamicIndexUpdated") :
    g.Response dec = some (none, some (Error.unsupportedCommandType ct)) := by
  simp [genericResponse.Response, hs, h1, h2]

theorem meta_CT (g : genericResponse) (m : Meta) (h : g.Meta = some m) :
    g.string CommandType = some m.CT := by
  unfold genericResponse.Meta at h
  split at h
  · simp at h
  · split at h
    · simp at h
    · split at h
      · simp at h
      · rename_i ct hct
        simp only [Option.some.injEq] at h
        subst h
        simpa using hct

theorem response_ok_CT (dec : RawMessage → Devices × Option Error) (g : genericResponse)
    (resp : Response) (h : g.Response dec = some (some resp, none)) :
    (resp.CommandType = "DeviceList" ∨ resp.CommandType = "DynamicIndexUpdated") ∧
      g.string CommandType = some resp.CommandType := by
  unfold genericResponse.Response at h
  split at h
  · simp at h
  · rename_i ct hct
    split at h
    · rename_i hdl
      split at h
      · simp at h
      · rename_i m hm
        split at h
        · simp at h
        · simp only [Option.some.injEq, Prod.mk.injEq] at h
          obtain ⟨h1, _⟩ := h
          subst h1
          have hm2 := meta_CT g m hm
          rw [hct] at hm2
          simp only [Option.some.injEq] at hm2
          simp only [Response.CommandType, Response.meta]
          rw [← hm2, hct, hdl]
          simp
    · split at h
      · rename_i hdl
        split at h
        · simp at h
        · rename_i m hm
          split at h
          · simp at h
          · simp only [Option.some.injEq, Prod.mk.injEq] at h
            obtain ⟨h1, _⟩ := h
            subst h1
            have hm2 := meta_CT g m hm
            rw [hct] at hm2
            simp only [Option.some.injEq] at hm2
            simp only [Response.CommandType, Response.meta]
            rw [← hm2, hct, hdl]
            simp
      · simp at h

theorem string_eq_nonempty (g : genericResponse) (k v : String) (h : g.string k = some v)
    (hv : v ≠ "") : g k = some (some (RawMessage.string v)) := by
  unfold genericResponse.string at h
  split at h
  · simp only [Option.some.injEq] at h
    exact absurd h.symm hv
  · simp at h
  · rename_i raw hraw
    simp only [Option.some.injEq] at h
    cases raw with
    | string s =>
      simp only [jsonUnmarshalString] at h
      rw [hraw, h]
    | null => exact absurd h.symm hv
    | bool b => exact absurd h.symm hv
    | number l => exact absurd h.symm hv
    | array l => exact absurd h.symm hv
    | object l => exact absurd h.symm hv

theorem string_of_nonnil (g : genericResponse) (k : String) (h : g k ≠ some none) :
    ∃ v, g.string k = some v := by
  unfold genericResponse.string
  split
  · exact ⟨_, rfl⟩
  · rename_i hk
    exact absurd hk h
  · exact ⟨_, rfl⟩

/-- A field map with a supported category, no nil pointer under the three routing keys and a
Devices value that the decoder accepts is decoded into a frame carrying its three fields. -/
theorem response_valid (dec : RawMessage → Devices × Option Error) (g : genericResponse)
    (ct : String) (raw : RawMessage) (devs : Devices)
    (hct : g CommandType = some (some (RawMessage.string ct)))
    (hk : ct = "DeviceList" ∨ ct = "DynamicIndexUpdated")
    (ha : g Action ≠ some none) (hm : g MobileInternalIndex ≠ some none)
    (hd : g "Devices" = some (some raw)) (hdec : dec raw = (devs, none)) :
    ∃ resp, g.Response dec = some (some resp, none) ∧
      resp.CommandType = ct ∧
      g.string MobileInternalIndex = some resp.MobileInternalIndex ∧
      g.string Action = some resp.Action ∧
      (resp = Response.DeviceList resp.meta devs ∨
        resp = Response.DynamicIndexUpdated resp.meta devs) := by
  obtain ⟨act, hact⟩ := string_of_nonnil g Action ha
  obtain ⟨mii, hmii⟩ := string_of_nonnil g MobileInternalIndex hm
  have hcts : g.string CommandType = some ct := string_of_string g _ ct hct
  have hmeta : g.Meta = some { MII := mii, CT := ct, ACT := act } := by
    simp [genericResponse.Meta, hact, hmii, hcts]
  have hun : g.unmarshal dec "Devices" = some (devs, none) := by
    simp [genericResponse.unmarshal, hd, hdec]
  rcases hk with hk | hk
  · subst hk
    refine ⟨Response.DeviceList { MII := mii, CT := "DeviceList", ACT := act } devs, ?_,
      rfl, hmii, hact, Or.inl rfl⟩
    simp [genericResponse.Response, hcts, hmeta, hun]
  · subst hk
    refine ⟨Response.DynamicIndexUpdated { MII := mii, CT := "DynamicIndexUpdated", ACT := act }
      devs, ?_, rfl, hmii, hact, Or.inr rfl⟩
    simp [genericResponse.Response, hcts, hmeta, hun]

/-- C7: a field map whose CommandType is absent, or a string other than DeviceList and
DynamicIndexUpdated, makes Response return an error and no frame; the reader iteration skips
it whatever the state of the select, the client state is left as it was (reader still
running, nothing resolved, no subscriber written), the messages after it are processed as if
it had not arrived, and a following frame that decodes without error on an open client is
handed to the dispatch step.  Conversely a frame returned without error carries DeviceList
or DynamicIndexUpdated, the string held by the CommandType field of its field map.  A valid
frame does decode: a field map with category DeviceList or DynamicIndexUpdated, no null
under the three routing keys and a Devices value the decoder accepts yields a frame with
those three fields, and when it arrives on an open client right after the unsupported frame
the two messages together end in the dispatch of that frame. -/
theorem unsupported_category_recoverable (dec : RawMessage → Devices × Option Error)
    (g : genericResponse)
    (hct : g CommandType = none ∨ ∃ ct, g CommandType = some (some (RawMessage.string ct)) ∧
      ct ≠ "DeviceList" ∧ ct ≠ "DynamicIndexUpdated") :
    (∃ e, g.Response dec = some (none, some e)) ∧
    (∀ runReceiving closed prefer,
      readLoop dec runReceiving closed prefer (ReadJSON.decoded g) = ReaderStep.skipped) ∧
    (∀ s prefer, inbound dec s prefer (ReadJSON.decoded g) = some s) ∧
    (∀ s prefer ms, inboundAll dec prefer s (ReadJSON.decoded g :: ms)
      = inboundAll dec prefer s ms) ∧
    (∀ (s : Client) (prefer : Branch) (g2 : genericResponse) (resp : Response),
      s.readLive = true → s.runLive = true → s.closing = false →
      g2.Response dec = some (some resp, none) →
      inbound dec s prefer (ReadJSON.decoded g2) = run s (RunCase.responses resp)) ∧
    (∀ (g2 : genericResponse) (resp : Response), g2.Response dec = some (some resp, none) →
      (resp.CommandType = "DeviceList" ∨ resp.CommandType = "DynamicIndexUpdated") ∧
      g2 CommandType = some (some (RawMessage.string resp.CommandType))) ∧
    (∀ (s : Client) (prefer : Branch) (g2 : genericResponse) (ct : String) (raw : RawMessage)
      (devs : Devices),
      s.readLive = true → s.runLive = true → s.closing = false →
      g2 CommandType = some (some (RawMessage.string ct)) →
      (ct = "DeviceList" ∨ ct = "DynamicIndexUpdated") →
      g2 Action ≠ some none → g2 MobileInternalIndex ≠ some none →
      g2 "Devices" = some (some raw) → dec raw = (devs, none) →
      ∃ resp, g2.Response dec = some (some resp, none) ∧
        resp.CommandType = ct ∧
        g2.string MobileInternalIndex = some resp.MobileInternalIndex ∧
        g2.string Action = some resp.Action ∧
        (resp = Response.DeviceList resp.meta devs ∨
          resp = Response.DynamicIndexUpdated resp.meta devs) ∧
        readLoop dec s.runLive s.closing prefer (ReadJSON.decoded g2)
          = ReaderStep.forwarded resp ∧
        inboundAll dec prefer s [ReadJSON.decoded g, ReadJSON.decoded g2]
          = run s (RunCase.responses resp)) := by
  have hresp : ∃ ct, g.Response dec = some (none, some (Error.unsupportedCommandType ct)) := by
    rcases hct with h | ⟨ct, h, h1, h2⟩
    · exact ⟨"", response_unsupported dec g "" (string_of_absent g _ h) (by decide) (by decide)⟩
    · exact ⟨ct, response_unsupported dec g ct (string_of_string g _ ct h) h1 h2⟩
  obtain ⟨ct, hr⟩ := hresp
  have hskip : ∀ runReceiving closed prefer,
      readLoop dec runReceiving closed prefer (ReadJSON.decoded g) = ReaderStep.skipped := by
    intro a b c
    simp [readLoop, hr]
  have hin : ∀ s prefer, inbound dec s prefer (ReadJSON.decoded g) = some s := by
    intro s prefer
    unfold inbound
    split
    · rw [hskip]
    · rfl
  have hfwd : ∀ (s : Client) (prefer : Branch) (g2 : genericResponse) (resp : Response),
      s.readLive = true → s.runLive = true → s.closing = false →
      g2.Response dec = some (some resp, none) →
      inbound dec s prefer (ReadJSON.decoded g2) = run s (RunCase.responses resp) := by
    intro s prefer g2 resp h1 h2 h3 h4
    simp [inbound, h1, h2, h3, readLoop, h4, select, run]
  refine ⟨⟨_, hr⟩, hskip, hin, ?_, hfwd, ?_, ?_⟩
  · intro s prefer ms
    simp [inboundAll, hin]
  · intro g2 resp h
    obtain ⟨h1, h2⟩ := response_ok_CT dec g2 resp h
    refine ⟨h1, string_eq_nonempty g2 _ _ h2 ?_⟩
    rcases h1 with h1 | h1 <;> rw [h1] <;> decide
  · intro s prefer g2 ct raw devs h1 h2 h3 hct hk ha hm hd hdec
    obtain ⟨resp, hresp, hc, hmii, hact, hshape⟩ :=
      response_valid dec g2 ct raw devs hct hk ha hm hd hdec
    refine ⟨resp, hresp, hc, hmii, hact, hshape, ?_, ?_⟩
    · simp [readLoop, hresp, select, h2, h3]
    · have hstep := hfwd s prefer g2 resp h1 h2 h3 hresp
      simp only [inboundAll, hin]
      rw [hstep]
      cases run s (RunCase.responses resp) <;> rfl

/-- Witness for C7: the frame of category Zeta followed by a DeviceList frame for token 1,
on a client with that request pending. -/
theorem unsupported_category_recoverable_witness :
    zetaFrame CommandType = some (some (RawMessage.string "Zeta")) ∧
    readLoop emptyDevices true false Branch.comm (ReadJSON.decoded zetaFrame)
      = ReaderStep.skipped ∧
    inbound emptyDevices NewClient Branch.comm (ReadJSON.decoded zetaFrame) = some NewClient ∧
    deviceListFrame.Response emptyDevices = some (some frameA, none) ∧
    inboundAll emptyDevices Branch.comm pendingClient
      [ReadJSON.decoded zetaFrame, ReadJSON.decoded deviceListFrame]
      = run pendingClient (RunCase.responses frameA) := by
  have h := unsupported_category_recoverable emptyDevices zetaFrame
    (Or.inr ⟨"Zeta", by rfl, by decide, by decide⟩)
  have hdl : deviceListFrame.Response emptyDevices = some (some frameA, none) := by rfl
  obtain ⟨resp, hr, _, _, _, _, _, hall⟩ :=
    h.2.2.2.2.2.2 pendingClient Branch.comm deviceListFrame "DeviceList"
      (RawMessage.object "{}") [] (by rfl) (by rfl) (by rfl) (by rfl) (Or.inl rfl)
      (by decide) (by decide) (by rfl) (by rfl)
  rw [hdl] at hr
  simp only [Option.some.injEq, Prod.mk.injEq, and_true] at hr
  subst hr
  exact ⟨by rfl, h.2.1 true false Branch.comm, h.2.2.1 NewClient Branch.comm, hdl, hall⟩

/-- C8: on the field map decoded from an object whose CommandType is null, the nil pointer
stored under the key is dereferenced: string, Meta and Response all panic instead of yielding
the empty string. -/
theorem string_null_field_panics (dec : RawMessage → Devices × Option Error) :
    nullCommandType CommandType = some none ∧
    nullCommandType.string CommandType = none ∧
    nullCommandType.Meta = none ∧
    nullCommandType.Response dec = none ∧
    (∀ runReceiving closed prefer, readLoop dec runReceiving closed prefer
      (ReadJSON.decoded nullCommandType) = ReaderStep.panicked) := by
  have h0 : nullCommandType CommandType = some none := by rfl
  have h1 : nullCommandType.string CommandType = none := by
    simp [genericResponse.string, h0]
  have h2 : nullCommandType.string Action = some "" := by rfl
  have h3 : nullCommandType.string MobileInternalIndex = some "" := by rfl
  have h4 : nullCommandType.Response dec = none := by
    simp [genericResponse.Response, h1]
  refine ⟨h0, h1, ?_, h4, ?_⟩
  · simp [genericResponse.Meta, h1, h2, h3]
  · intro a b c
    simp [readLoop, h4]

/-! ## Lifecycle -/

/-- C9: the request case of run completes, maps the request token to its handle and leaves
every other entry as it was; the step is the registration followed by the transport write, and the
registration itself performs no write; whether the write succeeds or fails the loop keeps
running, the entry stays registered, the write attempt is logged and no channel is
written. -/
theorem run_request_registers (s : Client) (req : request) (writeOk : Bool) :
    run s (RunCase.requests req writeOk) = some (runRequest s req writeOk) ∧
    (runRequest s req writeOk).activeRequests req.MobileInternalIndex = some req.ResponseC ∧
    (∀ t, t ≠ req.MobileInternalIndex →
      (runRequest s req writeOk).activeRequests t = s.activeRequests t) ∧
    runRequest s req writeOk = connWriteJSON (register s req) req writeOk ∧
    (register s req).activeRequests req.MobileInternalIndex = some req.ResponseC ∧
    (register s req).writes = s.writes ∧
    (runRequest s req writeOk).writes = s.writes ++ [(req.Request, writeOk)] ∧
    (runRequest s req writeOk).runLive = s.runLive ∧
    (runRequest s req writeOk).chans = s.chans ∧
    (runRequest s req writeOk).subs = s.subs := by
  refine ⟨rfl, ?_, ?_, rfl, ?_, rfl, rfl, rfl, rfl, rfl⟩
  · simp [runRequest, connWriteJSON, register]
  · intro t ht
    simp [runRequest, connWriteJSON, register, Function.update_noteq ht]
  · simp [register]

/-- C5: on a client whose Close has returned, every call to Do returns the empty token, no
handle and the client-closed error, hands no request to the dispatch loop, and as an event
leaves the correlation table and the transport writes as they were. -/
theorem do_after_close (s0 s : Client) (hc : Close s0 = CloseResult.returned s) (r : Request)
    (prefer : Branch) (writeOk : Bool) :
    (Do s r prefer).result = some ("", none, some Error.clientClosed) ∧
    (Do s r prefer).handedOff = none ∧
    step s (Event.callDo r prefer writeOk) = some (Do s r prefer).state ∧
    (Do s r prefer).state.activeRequests = s.activeRequests ∧
    (Do s r prefer).state.writes = s.writes ∧
    (Do s r prefer).state.runLive = false := by
  cases hcl : s0.closing
  · simp only [Close, hcl, Bool.false_eq_true, if_false, CloseResult.returned.injEq] at hc
    subst hc
    simp [Do, DoCall.result, DoCall.handedOff, select, step]
  · simp [Close, hcl] at hc

/-- Witness for C5 on a freshly built client that was closed once. -/
theorem do_after_close_witness :
    (Do closedClient deviceListRequest Branch.comm).result
      = some ("", none, some Error.clientClosed) :=
  (do_after_close NewClient closedClient (by rfl) deviceListRequest Branch.comm true).1

/-- C6, refuted: on a freshly built client the first Close returns and the second one
panics, after having called the transport Close a second time. -/
theorem close_twice_panics :
    Close NewClient = CloseResult.returned closedClient ∧
    Close closedClient = CloseResult.panicked reclosedClient ∧
    closedClient.connCloses = 1 ∧ reclosedClient.connCloses = 2 := by
  refine ⟨by rfl, by rfl, by rfl, by rfl⟩

/-- C6, amended: once a Close has returned, a further Close calls the transport Close once
more and then panics on closing the closed channel; nothing else of the client changes and
the call does not wait. -/
theorem close_after_close (s0 s : Client) (hc : Close s0 = CloseResult.returned s) :
    Close s = CloseResult.panicked { s with connCloses := s.connCloses + 1 } ∧
    s.closing = true ∧ s.runLive = false ∧ s.readLive = false ∧
    s.connCloses = s0.connCloses + 1 := by
  cases hcl : s0.closing
  · simp only [Close, hcl, Bool.false_eq_true, if_false, CloseResult.returned.injEq] at hc
    subst hc
    simp [Close]
  · simp [Close, hcl] at hc

/-- Witness for the amended C6 on a freshly built client. -/
theorem close_after_close_witness :
    Close closedClient
      = CloseResult.panicked { closedClient with connCloses := closedClient.connCloses + 1 } :=
  (close_after_close NewClient closedClient (by rfl)).1

/-! ## Token allocation -/

theorem digitChar_toNat (d : Nat) (h : d < 10) : (digitChar d).toNat - 48 = d := by
  interval_cases d <;> rfl

theorem digitChar_ne_minus (d : Nat) (h : d < 10) : digitChar d ≠ '-' := by
  interval_cases d <;> decide

theorem parseDigits_append (cs : List Char) (c : Char) :
    parseDigits (cs ++ [c]) = parseDigits cs * 10 + (c.toNat - 48) := by
  simp [parseDigits, List.foldl_append]

theorem parseDigits_natDigits (fuel n : Nat) (h : n < fuel) :
    parseDigits (natDigits fuel n) = n := by
  induction fuel generalizing n with
  | zero => omega
  | succ fuel ih =>
    unfold natDigits
    split
    · rename_i hn
      simp [parseDigits, digitChar_toNat n hn]
    · rename_i hn
      rw [parseDigits_append, ih (n / 10) (by omega), digitChar_toNat _ (Nat.mod_lt _ (by omega))]
      omega

theorem natDigits_head (fuel n : Nat) : (natDigits (fuel + 1) n).head? ≠ some '-' := by
  induction fuel generalizing n with
  | zero =>
    unfold natDigits
    split
    · rename_i hn
      simpa using (digitChar_ne_minus n hn)
    · simp only [natDigits, List.nil_append, List.head?_cons, ne_eq, Option.some.injEq]
      exact digitChar_ne_minus _ (Nat.mod_lt _ (by omega))
  | succ fuel ih =>
    unfold natDigits
    split
    · rename_i hn
      simpa using (digitChar_ne_minus n hn)
    · have h := ih (n / 10)
      cases hd : natDigits (fuel + 1) (n / 10) with
      | nil =>
        simp only [List.nil_append, List.head?_cons, ne_eq, Option.some.injEq]
        exact digitChar_ne_minus _ (Nat.mod_lt _ (by omega))
      | cons c cs =>
        rw [hd] at h
        simpa using h

theorem parseInt_Itoa (i : Int) : parseInt (Itoa i) = i := by
  cases i with
  | ofNat n =>
    have hh := natDigits_head n n
    have hp := parseDigits_natDigits (n + 1) n (by omega)
    simp only [Itoa, parseInt]
    split
    · rename_i cs hcs
      rw [hcs] at hh
      simp at hh
    · rw [hp]
      rfl
  | negSucc n =>
    have hp := parseDigits_natDigits (n + 2) (n + 1) (by omega)
    simp only [Itoa, parseInt, hp]
    rfl

theorem Itoa_injective (i j : Int) (h : Itoa i = Itoa j) : i = j := by
  have h2 := congrArg parseInt h
  rwa [parseInt_Itoa, parseInt_Itoa] at h2

theorem wrapInt_eq (x : Int) :
    wrapInt x = (x + 9223372036854775808) % 18446744073709551616 - 9223372036854775808 := by
  simp only [wrapInt, intSize]
  norm_num

theorem wrapInt_add (a b : Int) : wrapInt (wrapInt a + b) = wrapInt (a + b) := by
  simp only [wrapInt_eq]
  omega

theorem wrapInt_small (x : Int) (h0 : -9223372036854775808 ≤ x) (h1 : x < 9223372036854775808) :
    wrapInt x = x := by
  simp only [wrapInt_eq]
  omega

theorem wrapInt_inj (a b : Nat) (hab : a < b) (hb : b < 18446744073709551616) :
    wrapInt ((a : Int) + 1) ≠ wrapInt ((b : Int) + 1) := by
  simp only [wrapInt_eq]
  omega

theorem resolve_frame (s s1 : Client) (r : Response) (h : resolve s r = some s1) :
    s1.idx = s.idx ∧ s1.closing = s.closing ∧ s1.subs = s.subs ∧
    s1.connCloses = s.connCloses ∧ s1.writes = s.writes ∧ s1.runLive = s.runLive ∧
    s1.readLive = s.readLive := by
  simp only [resolve] at h
  split at h
  · split at h
    · simp only [Option.some.injEq] at h
      subst h
      simp
    · simp at h
  · simp only [Option.some.injEq] at h
    subst h
    simp

theorem runResponse_idx (s s1 : Client) (r : Response) (h : runResponse s r = some s1) :
    s1.idx = s.idx := by
  unfold runResponse at h
  split at h
  · rename_i s2 h2
    simp only [Option.some.injEq] at h
    subst h
    exact (resolve_frame s s2 r h2).1
  · simp at h

theorem step_callDo (s : Client) (r : Request) (prefer : Branch) (writeOk : Bool) :
    ∃ s1, step s (Event.callDo r prefer writeOk) = some s1 ∧ s1.idx = wrapInt (s.idx + 1) := by
  simp only [step, run]
  split
  · exact ⟨_, rfl, rfl⟩
  · exact ⟨_, rfl, rfl⟩

theorem step_idx (s s1 : Client) (e : Event) (h : step s e = some s1)
    (he : ∀ r prefer writeOk, e ≠ Event.callDo r prefer writeOk) : s1.idx = s.idx := by
  cases e with
  | callDo r prefer writeOk => exact absurd rfl (he r prefer writeOk)
  | frame r =>
    simp only [step, run] at h
    split at h
    · exact runResponse_idx s s1 r h
    · simp only [Option.some.injEq] at h
      subst h
      rfl
  | subscribe ct =>
    simp only [step, run, Subscribe, Option.some.injEq] at h
    subst h
    rfl
  | recv hd =>
    simp only [step, run, Option.some.injEq] at h
    subst h
    rfl
  | close =>
    simp only [step, run, Close] at h
    split at h
    · rename_i s2 h2
      simp only [Option.some.injEq] at h
      subst h
      split at h2
      · simp at h2
      · simp only [CloseResult.returned.injEq] at h2
        subst h2
        rfl
    · simp at h

theorem allocated_get (evs : List Event) (s : Client) (k : Nat)
    (hk : k < (allocated s evs).length) :
    (allocated s evs)[k]? = some (Itoa (wrapInt (s.idx + ((k : Int) + 1)))) := by
  induction evs generalizing s k with
  | nil => simp [allocated] at hk
  | cons e es ih =>
    by_cases hdo : ∃ r prefer writeOk, e = Event.callDo r prefer writeOk
    · obtain ⟨r, prefer, writeOk, rfl⟩ := hdo
      obtain ⟨s1, hs1, hidx⟩ := step_callDo s r prefer writeOk
      have hal : allocated s (Event.callDo r prefer writeOk :: es)
          = (Do s r prefer).mii :: allocated s1 es := by
        simp only [allocated, hs1, List.singleton_append]
      rw [hal] at hk ⊢
      cases k with
      | zero => simp [Do]
      | succ k =>
        simp only [List.length_cons, Nat.add_lt_add_iff_right] at hk
        rw [List.getElem?_cons_succ, ih s1 k hk, hidx, wrapInt_add]
        congr 3
        push_cast
        ring
    · have hne : ∀ r prefer writeOk, e ≠ Event.callDo r prefer writeOk := by
        intro r prefer writeOk h
        exact hdo ⟨r, prefer, writeOk, h⟩
      have hnil : (match e with
          | Event.callDo r prefer _ => [(Do s r prefer).mii]
          | _ => []) = ([] : List String) := by
        cases e with
        | callDo r prefer writeOk => exact absurd rfl (hne r prefer writeOk)
        | frame r => rfl
        | subscribe ct => rfl
        | recv hd => rfl
        | close => rfl
      cases hst : step s e with
      | none =>
        simp only [allocated, hnil, hst, List.append_nil, List.length_nil] at hk
        omega
      | some s1 =>
        have hal : allocated s (e :: es) = allocated s1 es := by
          simp only [allocated, hnil, hst, List.nil_append]
        rw [hal] at hk ⊢
        rw [ih s1 k hk, step_idx s s1 e hst hne]

theorem allocated_doCalls_length (n : Nat) (s : Client) :
    (allocated s (doCalls n)).length = n := by
  induction n generalizing s with
  | zero => rfl
  | succ n ih =>
    obtain ⟨s1, hs1, _⟩ := step_callDo s { MII := "", CT := "DeviceList", ACT := "" }
      Branch.comm true
    have hd : doCalls (n + 1)
        = Event.callDo { MII := "", CT := "DeviceList", ACT := "" } Branch.comm true
          :: doCalls n := by
      simp only [doCalls, List.replicate_succ]
    rw [hd]
    simp only [allocated, hs1, List.singleton_append, List.length_cons, ih s1]

/-- C4, refuted: in a history of 2^63 calls of Do on a new client the last call is stamped
with the decimal string of -2^63, not with that of 2^63, because the 64-bit counter wraps. -/
theorem token_wraps_at_int_limit :
    (allocated NewClient (doCalls 9223372036854775808))[9223372036854775807]?
      = some "-9223372036854775808" ∧
    "-9223372036854775808" ≠ Itoa 9223372036854775808 := by
  have hlen := allocated_doCalls_length 9223372036854775808 NewClient
  have hget := allocated_get (doCalls 9223372036854775808) NewClient 9223372036854775807
    (by rw [hlen]; decide)
  have hval : Itoa (wrapInt (NewClient.idx + (((9223372036854775807 : Nat) : Int) + 1)))
      = "-9223372036854775808" := by
    decide
  have hneg : Itoa (-9223372036854775808) = "-9223372036854775808" := by decide
  refine ⟨by rw [hget, hval], ?_⟩
  intro h
  rw [← hneg] at h
  have := Itoa_injective _ _ h
  omega

/-- C4, amended: on a client whose counter is 0, in every history the call of Do number k
(from 1, failed calls counted) allocates the decimal string of k as long as k is below 2^63,
the tokens of a history of at most 2^64 calls are pairwise distinct, and every call stamps
the request and the request record with the allocated token. -/
theorem tokens_of_do (s : Client) (hs : s.idx = 0) (evs : List Event) :
    (∀ k, k < (allocated s evs).length → k + 1 < 9223372036854775808 →
      (allocated s evs)[k]? = some (Itoa ((k : Int) + 1))) ∧
    ((allocated s evs).length ≤ 18446744073709551616 → (allocated s evs).Nodup) ∧
    (∀ (s1 : Client) (r : Request) (prefer : Branch),
      (Do s1 r prefer).mii = Itoa (wrapInt (s1.idx + 1)) ∧
      (Do s1 r prefer).state.idx = wrapInt (s1.idx + 1) ∧
      (Do s1 r prefer).req.MobileInternalIndex = (Do s1 r prefer).mii ∧
      (Do s1 r prefer).req.Request.MII = (Do s1 r prefer).mii) := by
  refine ⟨?_, ?_, ?_⟩
  · intro k hk hsmall
    rw [allocated_get evs s k hk, hs, wrapInt_small _ (by omega) (by omega)]
    simp
  · intro hlen
    rw [List.nodup_iff_getElem?_ne_getElem?]
    intro i j hij hj
    rw [allocated_get evs s i (by omega), allocated_get evs s j hj, hs]
    intro h
    simp only [Option.some.injEq] at h
    have h2 := Itoa_injective _ _ h
    simp only [zero_add] at h2
    exact wrapInt_inj i j hij (by omega) h2
  · intro s1 r prefer
    exact ⟨rfl, rfl, rfl, rfl⟩

/-- Witness for the amended C4: three accepted calls on a new client. -/
theorem tokens_of_do_witness :
    (allocated NewClient (doCalls 3))[2]? = some (Itoa 3) ∧ (allocated NewClient (doCalls 3)).Nodup :=
  have h := tokens_of_do NewClient (by rfl) (doCalls 3)
  ⟨h.1 2 (by rw [allocated_doCalls_length]; decide) (by decide),
   h.2.1 (by rw [allocated_doCalls_length]; decide)⟩

/-! ## Channels and the routing invariant -/

theorem send_eq (chans : List Chan) (h : Nat) (r : Response) (c : Chan)
    (hc : chans[h]? = some c) (hroom : c.buf.length < c.cap) :
    send chans h r = some (chans.set h (c.push r)) := by
  simp [send, hc, hroom]

theorem trySend_get (chans : List Chan) (h : Nat) (r : Response) (k : Nat) :
    (trySend chans h r)[k]? = if k = h then (chans[h]?).map (fun c => c.deliver r)
      else chans[k]? := by
  unfold trySend send
  cases hc : chans[h]? with
  | none =>
    by_cases hk : k = h
    · subst hk
      simp [hc]
    · simp [hk]
  | some c =>
    by_cases hroom : c.buf.length < c.cap
    · by_cases hk : k = h
      · subst hk
        have hlt : k < chans.length := by
          rcases Nat.lt_or_ge k chans.length with h1 | h1
          · exact h1
          · rw [List.getElem?_eq_none h1] at hc
            simp at hc
        simp [hroom, Chan.deliver, List.getElem?_set_self, hlt]
      · simp [hroom, hk, List.getElem?_set_ne (Ne.symm hk)]
    · by_cases hk : k = h
      · subst hk
        simp [hroom, Chan.deliver, hc]
      · simp [hroom, hk]

theorem fold_trySend_get (r : Response) (subs : List Nat) (hnd : subs.Nodup)
    (chans : List Chan) (k : Nat) :
    (subs.foldl (fun chans sub => trySend chans sub r) chans)[k]?
      = if k ∈ subs then (chans[k]?).map (fun c => c.deliver r) else chans[k]? := by
  induction subs generalizing chans with
  | nil => simp
  | cons a subs ih =>
    rw [List.nodup_cons] at hnd
    rw [List.foldl_cons, ih hnd.2, trySend_get]
    by_cases hka : k = a
    · subst hka
      simp [hnd.1]
    · simp [hka]

theorem fanout_get (s : Client) (r : Response) (hnd : (s.subs r.CommandType).Nodup) (k : Nat) :
    (fanout s r).chans[k]? = if k ∈ s.subs r.CommandType
      then (s.chans[k]?).map (fun c => c.deliver r) else s.chans[k]? := by
  simp only [fanout]
  exact fold_trySend_get r _ hnd s.chans k

theorem inv_NewClient : Inv NewClient := by
  refine ⟨?_, ?_, ?_, ?_, ?_⟩ <;> simp [NewClient]

theorem resolve_of_none (s : Client) (r : Response)
    (h : s.activeRequests r.MobileInternalIndex = none) : resolve s r = some s := by
  simp [resolve, h]

theorem resolve_of_some (s : Client) (hs : Inv s) (r : Response) (h : Nat)
    (hreg : s.activeRequests r.MobileInternalIndex = some h) :
    resolve s r = some { s with
      chans := s.chans.set h ((Chan.make 1).push r),
      activeRequests := Function.update s.activeRequests r.MobileInternalIndex none } := by
  have hc := hs.reg _ _ hreg
  have hsend := send_eq s.chans h r (Chan.make 1) hc (by simp [Chan.make])
  simp [resolve, hreg, hsend]

theorem getElem?_lt_of_some (chans : List Chan) (h : Nat) (c : Chan)
    (hc : chans[h]? = some c) : h < chans.length := by
  rcases Nat.lt_or_ge h chans.length with h1 | h1
  · exact h1
  · rw [List.getElem?_eq_none h1] at hc
    simp at hc

theorem getElem?_append_some (chans : List Chan) (h : Nat) (c x : Chan)
    (hc : chans[h]? = some c) : (chans ++ [x])[h]? = some c := by
  rw [List.getElem?_append_left (getElem?_lt_of_some chans h c hc)]
  exact hc

theorem recv_get (chans : List Chan) (h k : Nat) :
    (recv chans h)[k]? = if k = h then (chans[h]?).map (fun c => { c with buf := c.buf.tail })
      else chans[k]? := by
  unfold recv
  cases hc : chans[h]? with
  | none =>
    by_cases hk : k = h
    · subst hk
      simp [hc]
    · simp [hk]
  | some c =>
    by_cases hk : k = h
    · subst hk
      simp [List.getElem?_set_self, getElem?_lt_of_some chans k c hc]
    · simp [hk, List.getElem?_set_ne (Ne.symm hk)]

theorem deliver_cap (c : Chan) (r : Response) : (c.deliver r).cap = c.cap := by
  unfold Chan.deliver
  split <;> rfl

/-- The invariant survives any change of the channels that keeps capacities and keeps
unwritten capacity-1 channels unwritten. -/
theorem inv_of_chans (s s1 : Client) (hs : Inv s) (hAR : s1.activeRequests = s.activeRequests)
    (hsubs : s1.subs = s.subs)
    (hch : ∀ (h : Nat) (c : Chan), s.chans[h]? = some c →
      ∃ c1, s1.chans[h]? = some c1 ∧ c1.cap = c.cap ∧ (c = Chan.make 1 → c1 = Chan.make 1)) :
    Inv s1 := by
  refine ⟨?_, ?_, ?_, ?_, ?_⟩
  · intro t h ht
    rw [hAR] at ht
    obtain ⟨c1, h1, _, h3⟩ := hch h _ (hs.reg t h ht)
    rw [h1, h3 rfl]
  · intro t1 t2 h h1 h2
    rw [hAR] at h1 h2
    exact hs.inj t1 t2 h h1 h2
  · intro ct h hmem
    rw [hsubs] at hmem
    obtain ⟨c, hc, hcap⟩ := hs.sub ct h hmem
    obtain ⟨c1, h1, h2, _⟩ := hch h c hc
    exact ⟨c1, h1, by rw [h2, hcap]⟩
  · intro ct
    rw [hsubs]
    exact hs.nodup ct
  · intro ct1 ct2 h h1 h2
    rw [hsubs] at h1 h2
    exact hs.disj ct1 ct2 h h1 h2

theorem not_sub_of_cap_one (s : Client) (hs : Inv s) (h : Nat) (c : Chan)
    (hc : s.chans[h]? = some c) (hcap : c.cap = 1) (ct : String) : h ∉ s.subs ct := by
  intro hmem
  obtain ⟨c2, hc2, hcap2⟩ := hs.sub ct h hmem
  rw [hc] at hc2
  simp only [Option.some.injEq] at hc2
  subst hc2
  omega

theorem inv_fanout (s : Client) (hs : Inv s) (r : Response) : Inv (fanout s r) := by
  apply inv_of_chans s (fanout s r) hs rfl rfl
  intro h c hc
  rw [fanout_get s r (hs.nodup _)]
  by_cases hmem : h ∈ s.subs r.CommandType
  · refine ⟨c.deliver r, by simp [hmem, hc], deliver_cap c r, ?_⟩
    intro hmk
    exact absurd hmem (not_sub_of_cap_one s hs h c hc (by rw [hmk]; rfl) _)
  · exact ⟨c, by simp [hmem, hc], rfl, fun x => x⟩

theorem inv_resolve (s s1 : Client) (hs : Inv s) (r : Response) (h1 : resolve s r = some s1) :
    Inv s1 := by
  cases hreg : s.activeRequests r.MobileInternalIndex with
  | none =>
    rw [resolve_of_none s r hreg] at h1
    simp only [Option.some.injEq] at h1
    subst h1
    exact hs
  | some h =>
    rw [resolve_of_some s hs r h hreg] at h1
    simp only [Option.some.injEq] at h1
    subst h1
    have hch := hs.reg _ _ hreg
    refine ⟨?_, ?_, ?_, ?_, ?_⟩
    · intro t k ht
      simp only at ht ⊢
      by_cases htm : t = r.MobileInternalIndex
      · subst htm
        simp at ht
      · rw [Function.update_noteq htm] at ht
        have hkh : k ≠ h := by
          intro hkh
          subst hkh
          exact htm (hs.inj _ _ _ ht hreg)
        rw [List.getElem?_set_ne (Ne.symm hkh)]
        exact hs.reg t k ht
    · intro t1 t2 k ht1 ht2
      simp only at ht1 ht2
      by_cases h1m : t1 = r.MobileInternalIndex
      · subst h1m
        simp at ht1
      · by_cases h2m : t2 = r.MobileInternalIndex
        · subst h2m
          simp at ht2
        · rw [Function.update_noteq h1m] at ht1
          rw [Function.update_noteq h2m] at ht2
          exact hs.inj t1 t2 k ht1 ht2
    · intro ct k hmem
      simp only at hmem ⊢
      obtain ⟨c, hc, hcap⟩ := hs.sub ct k hmem
      have hkh : k ≠ h := by
        intro hkh
        subst hkh
        rw [hch] at hc
        simp only [Option.some.injEq] at hc
        subst hc
        simp [Chan.make] at hcap
      exact ⟨c, by rw [List.getElem?_set_ne (Ne.symm hkh)]; exact hc, hcap⟩
    · exact hs.nodup
    · exact hs.disj

theorem runResponse_eq (s : Client) (hs : Inv s) (r : Response) :
    ∃ s1, resolve s r = some s1 ∧ Inv s1 ∧ runResponse s r = some (fanout s1 r) := by
  cases hreg : s.activeRequests r.MobileInternalIndex with
  | none =>
    have h1 := resolve_of_none s r hreg
    exact ⟨s, h1, hs, by simp [runResponse, h1]⟩
  | some h =>
    have h1 := resolve_of_some s hs r h hreg
    exact ⟨_, h1, inv_resolve s _ hs r h1, by simp [runResponse, h1]⟩

theorem inv_runResponse (s s2 : Client) (hs : Inv s) (r : Response)
    (h : runResponse s r = some s2) : Inv s2 := by
  obtain ⟨s1, _, hinv, h2⟩ := runResponse_eq s hs r
  rw [h2] at h
  simp only [Option.some.injEq] at h
  subst h
  exact inv_fanout s1 hinv r

theorem inv_Do_state (s : Client) (hs : Inv s) (r : Request) (prefer : Branch) :
    Inv (Do s r prefer).state := by
  refine inv_of_chans s (Do s r prefer).state hs rfl rfl ?_
  intro h c hc
  exact ⟨c, getElem?_append_some s.chans h c _ hc, rfl, fun x => x⟩

theorem inv_runRequest (s : Client) (hs : Inv s) (req : request) (writeOk : Bool)
    (hfresh : s.chans[req.ResponseC]? = some (Chan.make 1))
    (hunused : ∀ t, s.activeRequests t ≠ some req.ResponseC) :
    Inv (runRequest s req writeOk) := by
  refine ⟨?_, ?_, hs.sub, hs.nodup, hs.disj⟩
  · intro t h ht
    simp only [runRequest, connWriteJSON, register] at ht ⊢
    by_cases htm : t = req.MobileInternalIndex
    · subst htm
      simp only [Function.update_same, Option.some.injEq] at ht
      subst ht
      exact hfresh
    · rw [Function.update_noteq htm] at ht
      exact hs.reg t h ht
  · intro t1 t2 h h1 h2
    simp only [runRequest, connWriteJSON, register] at h1 h2
    by_cases h1m : t1 = req.MobileInternalIndex
    · by_cases h2m : t2 = req.MobileInternalIndex
      · rw [h1m, h2m]
      · subst h1m
        rw [Function.update_noteq h2m] at h2
        simp only [Function.update_same, Option.some.injEq] at h1
        subst h1
        exact absurd h2 (hunused t2)
    · by_cases h2m : t2 = req.MobileInternalIndex
      · subst h2m
        rw [Function.update_noteq h1m] at h1
        simp only [Function.update_same, Option.some.injEq] at h2
        subst h2
        exact absurd h1 (hunused t1)
      · rw [Function.update_noteq h1m] at h1
        rw [Function.update_noteq h2m] at h2
        exact hs.inj t1 t2 h h1 h2

theorem unused_length (s : Client) (hs : Inv s) (t : String) :
    s.activeRequests t ≠ some s.chans.length := by
  intro h
  have := getElem?_lt_of_some _ _ _ (hs.reg t _ h)
  omega

theorem inv_callDo (s : Client) (hs : Inv s) (r : Request) (prefer : Branch) (writeOk : Bool) :
    Inv (runRequest (Do s r prefer).state (Do s r prefer).req writeOk) := by
  apply inv_runRequest _ (inv_Do_state s hs r prefer)
  · simp [Do]
  · intro t
    exact unused_length s hs t

theorem inv_Subscribe (s : Client) (hs : Inv s) (ct : String) : Inv (Subscribe s ct).1 := by
  have hfresh : ∀ ct2, s.chans.length ∉ s.subs ct2 := by
    intro ct2 hmem
    obtain ⟨c, hc, _⟩ := hs.sub ct2 _ hmem
    have := getElem?_lt_of_some _ _ _ hc
    omega
  have hmem : ∀ ct2 h, h ∈ (Subscribe s ct).1.subs ct2 →
      h ∈ s.subs ct2 ∨ (ct2 = ct ∧ h = s.chans.length) := by
    intro ct2 h hm
    simp only [Subscribe] at hm
    by_cases hct : ct2 = ct
    · subst hct
      simp only [Function.update_same, List.mem_append, List.mem_singleton] at hm
      rcases hm with hm | hm
      · exact Or.inl hm
      · exact Or.inr ⟨rfl, hm⟩
    · rw [Function.update_noteq hct] at hm
      exact Or.inl hm
  refine ⟨?_, hs.inj, ?_, ?_, ?_⟩
  · intro t h ht
    exact getElem?_append_some s.chans h _ _ (hs.reg t h ht)
  · intro ct2 h hm
    rcases hmem ct2 h hm with h1 | ⟨_, h1⟩
    · obtain ⟨c, hc, hcap⟩ := hs.sub ct2 h h1
      exact ⟨c, getElem?_append_some s.chans h c _ hc, hcap⟩
    · subst h1
      exact ⟨Chan.make 10, by simp [Subscribe], rfl⟩
  · intro ct2
    simp only [Subscribe]
    by_cases hct : ct2 = ct
    · subst hct
      simp only [Function.update_same]
      rw [List.nodup_append]
      refine ⟨hs.nodup ct2, List.nodup_singleton _, ?_⟩
      intro a ha hb
      simp only [List.mem_singleton] at hb
      subst hb
      exact hfresh ct2 ha
    · rw [Function.update_noteq hct]
      exact hs.nodup ct2
  · intro ct1 ct2 h h1 h2
    rcases hmem ct1 h h1 with a1 | ⟨a1, b1⟩
    · rcases hmem ct2 h h2 with a2 | ⟨a2, b2⟩
      · exact hs.disj ct1 ct2 h a1 a2
      · subst b2
        exact absurd a1 (hfresh ct1)
    · rcases hmem ct2 h h2 with a2 | ⟨a2, b2⟩
      · subst b1
        exact absurd a2 (hfresh ct2)
      · rw [a1, a2]

theorem inv_recv (s : Client) (hs : Inv s) (k : Nat) :
    Inv { s with chans := recv s.chans k } := by
  refine inv_of_chans s { s with chans := recv s.chans k } hs rfl rfl ?_
  intro h c hc
  simp only
  rw [recv_get]
  by_cases hk : h = k
  · subst hk
    refine ⟨{ c with buf := c.buf.tail }, by simp [hc], rfl, ?_⟩
    intro hmk
    subst hmk
    rfl
  · exact ⟨c, by simp [hk, hc], rfl, fun x => x⟩

theorem Close_returned (s s1 : Client) (h : Close s = CloseResult.returned s1) :
    s1 = { s with connCloses := s.connCloses + 1, closing := true, runLive := false,
                  readLive := false } := by
  cases hcl : s.closing
  · simp only [Close, hcl, Bool.false_eq_true, if_false, CloseResult.returned.injEq] at h
    exact h.symm
  · simp [Close, hcl] at h

theorem inv_step (s s1 : Client) (hs : Inv s) (e : Event) (h : step s e = some s1) : Inv s1 := by
  cases e with
  | callDo r prefer writeOk =>
    simp only [step, run] at h
    cases hb : (Do s r prefer).handedOff with
    | none =>
      rw [hb] at h
      simp only [Option.some.injEq] at h
      subst h
      exact inv_Do_state s hs r prefer
    | some req =>
      rw [hb] at h
      simp only [Option.some.injEq] at h
      subst h
      have hreq : req = (Do s r prefer).req := by
        simp only [DoCall.handedOff] at hb
        split at hb
        · simp only [Option.some.injEq] at hb
          exact hb.symm
        · simp at hb
      rw [hreq]
      exact inv_callDo s hs r prefer writeOk
  | frame r =>
    simp only [step, run] at h
    split at h
    · exact inv_runResponse s s1 hs r h
    · simp only [Option.some.injEq] at h
      subst h
      exact hs
  | subscribe ct =>
    simp only [step, run, Option.some.injEq] at h
    subst h
    exact inv_Subscribe s hs ct
  | recv k =>
    simp only [step, run, Option.some.injEq] at h
    subst h
    exact inv_recv s hs k
  | close =>
    simp only [step, run] at h
    split at h
    · rename_i s2 h2
      simp only [Option.some.injEq] at h
      subst h
      rw [Close_returned s s2 h2]
      exact inv_of_chans s
        { s with connCloses := s.connCloses + 1, closing := true, runLive := false,
                 readLive := false }
        hs rfl rfl (fun h c hc => ⟨c, hc, rfl, fun x => x⟩)
    · simp at h

theorem inv_exec (evs : List Event) (s sf : Client) (hs : Inv s) (h : exec s evs = some sf) :
    Inv sf := by
  induction evs generalizing s with
  | nil =>
    simp only [exec, Option.some.injEq] at h
    subst h
    exact hs
  | cons e es ih =>
    simp only [exec] at h
    split at h
    · rename_i s1 h1
      exact ih s1 (inv_step s s1 hs e h1) h
    · simp at h

theorem sub_not_reg (s : Client) (hs : Inv s) (ct : String) (h : Nat) (hmem : h ∈ s.subs ct)
    (t : String) : s.activeRequests t ≠ some h := by
  intro ht
  exact not_sub_of_cap_one s hs h _ (hs.reg t h ht) rfl ct hmem

theorem resolve_get (s s1 : Client) (hs : Inv s) (r : Response) (h1 : resolve s r = some s1)
    (k : Nat) :
    s1.chans[k]? = if s.activeRequests r.MobileInternalIndex = some k
      then some ((Chan.make 1).push r) else s.chans[k]? := by
  cases hreg : s.activeRequests r.MobileInternalIndex with
  | none =>
    rw [resolve_of_none s r hreg] at h1
    simp only [Option.some.injEq] at h1
    subst h1
    simp
  | some h =>
    rw [resolve_of_some s hs r h hreg] at h1
    simp only [Option.some.injEq] at h1
    subst h1
    have hlt := getElem?_lt_of_some _ _ _ (hs.reg _ _ hreg)
    by_cases hk : h = k
    · subst hk
      simp [List.getElem?_set_self, hlt]
    · simp [hk, List.getElem?_set_ne hk]

theorem resolve_table (s s1 : Client) (r : Response) (h1 : resolve s r = some s1) :
    s1.activeRequests = Function.update s.activeRequests r.MobileInternalIndex none := by
  simp only [resolve] at h1
  split at h1
  · split at h1
    · simp only [Option.some.injEq] at h1
      subst h1
      rfl
    · simp at h1
  · rename_i hnone
    simp only [Option.some.injEq] at h1
    subst h1
    funext t
    by_cases ht : t = r.MobileInternalIndex
    · subst ht
      simp [hnone]
    · simp [Function.update_noteq ht]

/-- C10: in every state reached from a new client by any history of Do calls, inbound
frames, subscriptions, receives and Close, every handle stored in the correlation table is a
capacity-1 channel with an empty buffer, the send of the correlation step on it completes,
and the frame case of run always yields a next state. -/
theorem correlation_send_never_blocks (evs : List Event) (s : Client)
    (h : exec NewClient evs = some s) :
    (∀ t k, s.activeRequests t = some k →
      ∃ c, s.chans[k]? = some c ∧ c.cap = 1 ∧ c.buf = []) ∧
    (∀ (r : Response) (k : Nat), s.activeRequests r.MobileInternalIndex = some k →
      ∃ chans1, send s.chans k r = some chans1) ∧
    (∀ r, ∃ s1, resolve s r = some s1) ∧
    (∀ r, ∃ s2, step s (Event.frame r) = some s2) := by
  have hs := inv_exec evs NewClient s inv_NewClient h
  refine ⟨?_, ?_, ?_, ?_⟩
  · intro t k ht
    exact ⟨Chan.make 1, hs.reg t k ht, rfl, rfl⟩
  · intro r k hk
    exact ⟨_, send_eq s.chans k r (Chan.make 1) (hs.reg _ k hk) (by simp [Chan.make])⟩
  · intro r
    obtain ⟨s1, h1, _⟩ := runResponse_eq s hs r
    exact ⟨s1, h1⟩
  · intro r
    obtain ⟨s1, _, _, h2⟩ := runResponse_eq s hs r
    simp only [step, run]
    split
    · exact ⟨_, h2⟩
    · exact ⟨s, rfl⟩

/-- Witness for C10: after one accepted Do the pending handle can take the matching frame. -/
theorem correlation_send_never_blocks_witness :
    exec NewClient [Event.callDo deviceListRequest Branch.comm true] = some pendingClient ∧
    ∃ s1, resolve pendingClient frameA = some s1 :=
  ⟨by rfl, (correlation_send_never_blocks [Event.callDo deviceListRequest Branch.comm true]
    pendingClient (by rfl)).2.2.1 frameA⟩

/-- C3: the frame case of run on a frame of category C appends the frame to every handle of
subs[C] whose buffer holds fewer than 10 frames, leaves a handle of subs[C] with 10 pending
frames as it was, each handle independently of the others, leaves the handles of every other
category as they were, and does so after the correlation step both when the token was
registered (entry removed, frame sent to its handle) and when it was not (state kept). -/
theorem fanout_single_frame (s : Client) (hs : Inv s) (r : Response) :
    ∃ s1 s2, resolve s r = some s1 ∧ runResponse s r = some s2 ∧ s2 = fanout s1 r ∧
      s2.subs = s.subs ∧
      (∀ (h : Nat) (c : Chan), h ∈ s.subs r.CommandType → s.chans[h]? = some c →
        c.buf.length < 10 →
        s2.chans[h]? = some { c with buf := c.buf ++ [r], written := c.written ++ [r] }) ∧
      (∀ (h : Nat) (c : Chan), h ∈ s.subs r.CommandType → s.chans[h]? = some c →
        10 ≤ c.buf.length → s2.chans[h]? = some c) ∧
      (∀ (ct : String) (h : Nat), ct ≠ r.CommandType → h ∈ s.subs ct →
        s2.chans[h]? = s.chans[h]?) ∧
      (s.activeRequests r.MobileInternalIndex = none → s1 = s) ∧
      (∀ k, s.activeRequests r.MobileInternalIndex = some k →
        s1.activeRequests r.MobileInternalIndex = none ∧
        s1.chans[k]? = some ((Chan.make 1).push r)) := by
  obtain ⟨s1, h1, hinv1, h2⟩ := runResponse_eq s hs r
  have hsubs : s1.subs = s.subs := (resolve_frame s s1 r h1).2.2.1
  have hkeep : ∀ (ct : String) (h : Nat), h ∈ s.subs ct → s1.chans[h]? = s.chans[h]? := by
    intro ct h hmem
    rw [resolve_get s s1 hs r h1 h]
    simp [sub_not_reg s hs ct h hmem]
  refine ⟨s1, fanout s1 r, h1, h2, rfl, hsubs, ?_, ?_, ?_, ?_, ?_⟩
  · intro h c hmem hc hroom
    obtain ⟨c2, hc2, hcap⟩ := hs.sub _ h hmem
    rw [hc] at hc2
    simp only [Option.some.injEq] at hc2
    subst hc2
    rw [fanout_get s1 r (hinv1.nodup _), hsubs, if_pos hmem, hkeep _ h hmem, hc]
    simp [Chan.deliver, hcap, hroom, Chan.push]
  · intro h c hmem hc hfull
    obtain ⟨c2, hc2, hcap⟩ := hs.sub _ h hmem
    rw [hc] at hc2
    simp only [Option.some.injEq] at hc2
    subst hc2
    rw [fanout_get s1 r (hinv1.nodup _), hsubs, if_pos hmem, hkeep _ h hmem, hc]
    have : ¬ c.buf.length < c.cap := by omega
    simp [Chan.deliver, this]
  · intro ct h hct hmem
    have hnot : h ∉ s.subs r.CommandType := by
      intro hm
      exact hct (hs.disj ct _ h hmem hm)
    rw [fanout_get s1 r (hinv1.nodup _), hsubs, if_neg hnot, hkeep ct h hmem]
  · intro hnone
    rw [resolve_of_none s r hnone] at h1
    simp only [Option.some.injEq] at h1
    exact h1.symm
  · intro k hk
    refine ⟨?_, ?_⟩
    · rw [resolve_table s s1 r h1]
      simp
    · rw [resolve_get s s1 hs r h1 k]
      simp [hk]

/-- Witness for C3: one subscriber of DeviceList receives a DeviceList frame. -/
theorem fanout_single_frame_witness :
    ∃ s2, runResponse subscribedClient frameA = some s2 ∧
      s2.chans[0]? = some { cap := 10, buf := [frameA], written := [frameA] } := by
  obtain ⟨s1, s2, _, h2, _, _, h5, _⟩ :=
    fanout_single_frame subscribedClient (inv_Subscribe NewClient inv_NewClient "DeviceList")
      frameA
  refine ⟨s2, h2, ?_⟩
  have h := h5 0 (Chan.make 10) (by simp [subscribedClient, Subscribe, NewClient, frameA,
    Response.CommandType, Response.meta]) (by rfl) (by simp [Chan.make])
  simpa [Chan.make] using h

/-! ## Correlation -/

theorem tracked_of_chans (s s1 : Client) (h : Nat) (t : String) (ht : Tracked s h t)
    (hAR : ∀ t1, s1.activeRequests t1 = some h → s.activeRequests t1 = some h)
    (hch : ∀ c, s.chans[h]? = some c →
      ∃ c1, s1.chans[h]? = some c1 ∧ c1.cap = c.cap ∧ c1.written = c.written) :
    Tracked s1 h t := by
  obtain ⟨c, hc, hcap, hst⟩ := ht
  obtain ⟨c1, hc1, hcap1, hw1⟩ := hch c hc
  refine ⟨c1, hc1, by rw [hcap1, hcap], ?_⟩
  rcases hst with ⟨hw, htab⟩ | ⟨f, hw, hf, htab⟩
  · exact Or.inl ⟨by rw [hw1, hw], fun t1 h1 => htab t1 (hAR t1 h1)⟩
  · exact Or.inr ⟨f, by rw [hw1, hw], hf, fun t1 h1 => htab t1 (hAR t1 h1)⟩

theorem tracked_fanout (s : Client) (hs : Inv s) (r : Response) (h : Nat) (t : String)
    (ht : Tracked s h t) : Tracked (fanout s r) h t := by
  refine tracked_of_chans s (fanout s r) h t ht (fun _ x => x) ?_
  intro c hc
  obtain ⟨c0, hc0, hcap0, _⟩ := ht
  rw [hc] at hc0
  simp only [Option.some.injEq] at hc0
  subst hc0
  rw [fanout_get s r (hs.nodup _), if_neg (not_sub_of_cap_one s hs h c hc hcap0 _)]
  exact ⟨c, hc, rfl, rfl⟩

theorem tracked_resolve (s s1 : Client) (hs : Inv s) (r : Response)
    (h1 : resolve s r = some s1) (h : Nat) (t : String) (ht : Tracked s h t) :
    Tracked s1 h t := by
  have htab := resolve_table s s1 r h1
  have hget := resolve_get s s1 hs r h1 h
  by_cases hreg : s.activeRequests r.MobileInternalIndex = some h
  · obtain ⟨c, hc, hcap, hst⟩ := ht
    rw [if_pos hreg] at hget
    refine ⟨_, hget, rfl, Or.inr ⟨r, rfl, ?_, ?_⟩⟩
    · rcases hst with ⟨_, hone⟩ | ⟨_, _, _, hno⟩
      · exact hone _ hreg
      · exact absurd hreg (hno _)
    · intro t1 h2
      rw [htab] at h2
      by_cases htm : t1 = r.MobileInternalIndex
      · subst htm
        simp at h2
      · rw [Function.update_noteq htm] at h2
        exact htm (hs.inj _ _ _ h2 hreg)
  · rw [if_neg hreg] at hget
    refine tracked_of_chans s s1 h t ht ?_ ?_
    · intro t1 h2
      rw [htab] at h2
      by_cases htm : t1 = r.MobileInternalIndex
      · subst htm
        simp at h2
      · rwa [Function.update_noteq htm] at h2
    · intro c hc
      exact ⟨c, by rw [hget, hc], rfl, rfl⟩

theorem tracked_step (s s1 : Client) (hs : Inv s) (e : Event) (hst : step s e = some s1)
    (h : Nat) (t : String) (ht : Tracked s h t) : Tracked s1 h t := by
  have hlt : h < s.chans.length := by
    obtain ⟨c, hc, _⟩ := ht
    exact getElem?_lt_of_some _ _ _ hc
  cases e with
  | callDo r prefer writeOk =>
    simp only [step, run] at hst
    cases hb : (Do s r prefer).handedOff with
    | none =>
      rw [hb] at hst
      simp only [Option.some.injEq] at hst
      subst hst
      exact tracked_of_chans s _ h t ht (fun _ x => x)
        (fun c hc => ⟨c, getElem?_append_some s.chans h c _ hc, rfl, rfl⟩)
    | some req =>
      rw [hb] at hst
      simp only [Option.some.injEq] at hst
      subst hst
      have hreq : req = (Do s r prefer).req := by
        simp only [DoCall.handedOff] at hb
        split at hb
        · simp only [Option.some.injEq] at hb
          exact hb.symm
        · simp at hb
      subst hreq
      refine tracked_of_chans s _ h t ht ?_
        (fun c hc => ⟨c, getElem?_append_some s.chans h c _ hc, rfl, rfl⟩)
      intro t1 h2
      simp only [runRequest, connWriteJSON, register, Do] at h2
      by_cases htm : t1 = Itoa (wrapInt (s.idx + 1))
      · subst htm
        simp only [Function.update_same, Option.some.injEq] at h2
        omega
      · rwa [Function.update_noteq htm] at h2
  | frame r =>
    simp only [step, run] at hst
    split at hst
    · obtain ⟨s2, h1, hinv, h2⟩ := runResponse_eq s hs r
      rw [h2] at hst
      simp only [Option.some.injEq] at hst
      subst hst
      exact tracked_fanout s2 hinv r h t (tracked_resolve s s2 hs r h1 h t ht)
    · simp only [Option.some.injEq] at hst
      subst hst
      exact ht
  | subscribe ct =>
    simp only [step, run, Option.some.injEq] at hst
    subst hst
    exact tracked_of_chans s _ h t ht (fun _ x => x)
      (fun c hc => ⟨c, getElem?_append_some s.chans h c _ hc, rfl, rfl⟩)
  | recv k =>
    simp only [step, run, Option.some.injEq] at hst
    subst hst
    refine tracked_of_chans s _ h t ht (fun _ x => x) ?_
    intro c hc
    simp only
    rw [recv_get]
    by_cases hk : h = k
    · subst hk
      exact ⟨{ c with buf := c.buf.tail }, by simp [hc], rfl, rfl⟩
    · exact ⟨c, by simp [hk, hc], rfl, rfl⟩
  | close =>
    simp only [step, run] at hst
    split at hst
    · rename_i s2 h2
      simp only [Option.some.injEq] at hst
      subst hst
      rw [Close_returned s s2 h2]
      exact tracked_of_chans s _ h t ht (fun _ x => x) (fun c hc => ⟨c, hc, rfl, rfl⟩)
    · simp at hst

theorem tracked_exec (evs : List Event) (s sf : Client) (hs : Inv s)
    (hex : exec s evs = some sf) (h : Nat) (t : String) (ht : Tracked s h t) :
    Tracked sf h t := by
  induction evs generalizing s with
  | nil =>
    simp only [exec, Option.some.injEq] at hex
    subst hex
    exact ht
  | cons e es ih =>
    simp only [exec] at hex
    split at hex
    · rename_i s1 h1
      exact ih s1 (inv_step s s1 hs e h1) hex (tracked_step s s1 hs e h1 h t ht)
    · simp at hex

/-- C1: on a well-formed routing state the frame case of run, for a frame with token t:
if t is registered under handle h, completes, leaves in h exactly that frame, leaves every
other capacity-1 (correlation) channel as it was, removes the entry of t and keeps every
other entry; if t is not registered, completes with the table unchanged and no capacity-1
channel written.  Consequently, through every history of events that follows, a handle
registered under t has received either nothing or exactly one frame, whose token is t. -/
theorem correlation_dispatch (s : Client) (hs : Inv s) (r : Response) :
    (∀ h, s.activeRequests r.MobileInternalIndex = some h →
      ∃ s2, runResponse s r = some s2 ∧
        s2.chans[h]? = some { cap := 1, buf := [r], written := [r] } ∧
        (∀ (k : Nat) (c : Chan), k ≠ h → s.chans[k]? = some c → c.cap = 1 →
          s2.chans[k]? = some c) ∧
        s2.activeRequests r.MobileInternalIndex = none ∧
        (∀ t, t ≠ r.MobileInternalIndex → s2.activeRequests t = s.activeRequests t)) ∧
    (s.activeRequests r.MobileInternalIndex = none →
      ∃ s2, runResponse s r = some s2 ∧ s2.activeRequests = s.activeRequests ∧
        (∀ (k : Nat) (c : Chan), s.chans[k]? = some c → c.cap = 1 → s2.chans[k]? = some c)) ∧
    (∀ (t : String) (h : Nat) (evs : List Event) (sf : Client),
      s.activeRequests t = some h → exec s evs = some sf →
      ∃ c, sf.chans[h]? = some c ∧
        (c.written = [] ∨ ∃ f, c.written = [f] ∧ f.MobileInternalIndex = t)) := by
  obtain ⟨s1, h1, hinv1, h2⟩ := runResponse_eq s hs r
  have htab := resolve_table s s1 r h1
  have hfan : ∀ (k : Nat) (c : Chan), s1.chans[k]? = some c → c.cap = 1 →
      (fanout s1 r).chans[k]? = some c := by
    intro k c hc hcap
    rw [fanout_get s1 r (hinv1.nodup _), if_neg (not_sub_of_cap_one s1 hinv1 k c hc hcap _)]
    exact hc
  refine ⟨?_, ?_, ?_⟩
  · intro h hreg
    have hg : s1.chans[h]? = some ((Chan.make 1).push r) := by
      rw [resolve_get s s1 hs r h1 h, if_pos hreg]
    refine ⟨fanout s1 r, h2, ?_, ?_, ?_, ?_⟩
    · exact hfan h _ hg rfl
    · intro k c hk hc hcap
      apply hfan k c _ hcap
      rw [resolve_get s s1 hs r h1 k, hreg]
      simp [Ne.symm hk, hc]
    · show s1.activeRequests r.MobileInternalIndex = none
      rw [htab]
      simp
    · intro t ht
      show s1.activeRequests t = s.activeRequests t
      rw [htab, Function.update_noteq ht]
  · intro hnone
    rw [resolve_of_none s r hnone] at h1
    simp only [Option.some.injEq] at h1
    subst h1
    exact ⟨fanout s r, h2, rfl, hfan⟩
  · intro t h evs sf hreg hex
    have ht : Tracked s h t :=
      ⟨Chan.make 1, hs.reg t h hreg, rfl, Or.inl ⟨rfl, fun t1 h3 => hs.inj _ _ _ h3 hreg⟩⟩
    obtain ⟨c, hc, _, hst⟩ := tracked_exec evs s sf hs hex h t ht
    refine ⟨c, hc, ?_⟩
    rcases hst with ⟨hw, _⟩ | ⟨f, hw, hf, _⟩
    · exact Or.inl hw
    · exact Or.inr ⟨f, hw, hf⟩

/-- Witness for C1: the pending request of token 1 receives the frame of token 1. -/
theorem correlation_dispatch_witness :
    pendingClient.activeRequests frameA.MobileInternalIndex = some 0 ∧
    ∃ s2, runResponse pendingClient frameA = some s2 ∧
      s2.chans[0]? = some { cap := 1, buf := [frameA], written := [frameA] } ∧
      s2.activeRequests frameA.MobileInternalIndex = none :=
  have hreg : pendingClient.activeRequests frameA.MobileInternalIndex = some 0 := by decide
  have h := (correlation_dispatch pendingClient
    (inv_callDo NewClient inv_NewClient deviceListRequest Branch.comm true) frameA).1 0 hreg
  ⟨hreg, h.elim fun s2 hs2 => ⟨s2, hs2.1, hs2.2.1, hs2.2.2.2.1⟩⟩

/-! ## Subscriptions -/

theorem sub_step (s s1 : Client) (hs : Inv s) (e : Event) (hst : step s e = some s1)
    (C : String) (h : Nat) (hmem : h ∈ s.subs C) (c : Chan) (hc : s.chans[h]? = some c) :
    h ∈ s1.subs C ∧ s1.chans[h]? = some (subEffect s C h c e) := by
  cases e with
  | callDo r prefer writeOk =>
    simp only [step, run] at hst
    have hch : (Do s r prefer).state.chans[h]? = some c :=
      getElem?_append_some s.chans h c _ hc
    cases hb : (Do s r prefer).handedOff with
    | none =>
      rw [hb] at hst
      simp only [Option.some.injEq] at hst
      subst hst
      exact ⟨hmem, hch⟩
    | some req =>
      rw [hb] at hst
      simp only [Option.some.injEq] at hst
      subst hst
      exact ⟨hmem, hch⟩
  | frame r =>
    simp only [step, run] at hst
    split at hst
    · rename_i hlive
      obtain ⟨s2, h1, hinv, h2⟩ := runResponse_eq s hs r
      rw [h2] at hst
      simp only [Option.some.injEq] at hst
      subst hst
      have hsubs : s2.subs = s.subs := (resolve_frame s s2 r h1).2.2.1
      have hkeep : s2.chans[h]? = some c := by
        rw [resolve_get s s2 hs r h1 h]
        simp [sub_not_reg s hs C h hmem, hc]
      refine ⟨by show h ∈ s2.subs C; rw [hsubs]; exact hmem, ?_⟩
      rw [fanout_get s2 r (hinv.nodup _), hsubs]
      by_cases hct : r.CommandType = C
      · subst hct
        simp [subEffect, hlive, hmem, hkeep]
      · have hnot : h ∉ s.subs r.CommandType := by
          intro hm
          exact hct (hs.disj _ _ h hm hmem)
        simp [subEffect, hct, hnot, hkeep]
    · rename_i hlive
      simp only [Option.some.injEq] at hst
      subst hst
      simp [subEffect, hlive, hmem, hc]
  | subscribe ct =>
    simp only [step, run, Option.some.injEq] at hst
    subst hst
    refine ⟨?_, getElem?_append_some s.chans h c _ hc⟩
    simp only [Subscribe]
    by_cases hct : C = ct
    · subst hct
      simp [hmem]
    · rw [Function.update_noteq hct]
      exact hmem
  | recv k =>
    simp only [step, run, Option.some.injEq] at hst
    subst hst
    refine ⟨hmem, ?_⟩
    simp only
    rw [recv_get]
    by_cases hk : h = k
    · subst hk
      simp [subEffect, hc]
    · simp [subEffect, hk, Ne.symm hk, hc]
  | close =>
    simp only [step, run] at hst
    split at hst
    · rename_i s2 h2
      simp only [Option.some.injEq] at hst
      subst hst
      rw [Close_returned s s2 h2]
      exact ⟨hmem, hc⟩
    · simp at hst

theorem dispatched_cons (s s1 : Client) (e : Event) (es : List Event)
    (hst : step s e = some s1) :
    dispatched s (e :: es) = consumed s e ++ dispatched s1 es := by
  simp only [dispatched, hst]

theorem ofCategory_append (C : String) (xs ys : List Response) :
    ofCategory C (xs ++ ys) = ofCategory C xs ++ ofCategory C ys := by
  simp [ofCategory]

theorem subEffect_spec (s : Client) (C : String) (h : Nat) (c : Chan) (e : Event)
    (hcap : c.cap = 10) :
    ∃ P, (subEffect s C h c e).written = c.written ++ P ∧
      (subEffect s C h c e).cap = 10 ∧
      P.Sublist (ofCategory C (consumed s e)) ∧
      (e ≠ Event.recv h → c.buf.length + (ofCategory C (consumed s e)).length ≤ 10 →
        P = ofCategory C (consumed s e) ∧ (subEffect s C h c e).buf = c.buf ++ P) := by
  cases e with
  | callDo r prefer writeOk => exact ⟨[], by simp [subEffect, consumed, ofCategory, hcap]⟩
  | subscribe ct => exact ⟨[], by simp [subEffect, consumed, ofCategory, hcap]⟩
  | close => exact ⟨[], by simp [subEffect, consumed, ofCategory, hcap]⟩
  | recv k =>
    by_cases hk : k = h
    · subst hk
      exact ⟨[], by simp [subEffect, consumed, ofCategory, hcap]⟩
    · exact ⟨[], by simp [subEffect, consumed, ofCategory, hcap, hk]⟩
  | frame r =>
    by_cases hlive : s.runLive = true
    · by_cases hct : r.CommandType = C
      · by_cases hroom : c.buf.length < c.cap
        · have hroom10 : c.buf.length < 10 := by omega
          refine ⟨[r], ?_⟩
          simp [subEffect, consumed, ofCategory, hlive, hct, Chan.deliver, hroom10, Chan.push,
            hcap]
        · refine ⟨[], ?_⟩
          simp only [subEffect, consumed, ofCategory, hlive, hct, Chan.deliver, hroom]
          refine ⟨by simp, by simpa using hcap, by simp, ?_⟩
          intro _ hlen
          simp [hct] at hlen
          omega
      · exact ⟨[], by simp [subEffect, consumed, ofCategory, hlive, hct, hcap]⟩
    · exact ⟨[], by simp [subEffect, consumed, ofCategory, hlive, hcap]⟩

theorem sub_history (evs : List Event) (s sf : Client) (hs : Inv s)
    (hex : exec s evs = some sf) (C : String) (h : Nat) (hmem : h ∈ s.subs C) (c : Chan)
    (hc : s.chans[h]? = some c) :
    h ∈ sf.subs C ∧ ∃ cf L, sf.chans[h]? = some cf ∧ cf.written = c.written ++ L ∧
      L.Sublist (ofCategory C (dispatched s evs)) ∧
      (Event.recv h ∉ evs → c.buf.length + (ofCategory C (dispatched s evs)).length ≤ 10 →
        L = ofCategory C (dispatched s evs) ∧ cf.buf = c.buf ++ L) := by
  induction evs generalizing s c with
  | nil =>
    simp only [exec, Option.some.injEq] at hex
    subst hex
    exact ⟨hmem, c, [], hc, by simp, by simp [dispatched, ofCategory],
      fun _ _ => by simp [dispatched, ofCategory]⟩
  | cons e es ih =>
    simp only [exec] at hex
    split at hex
    · rename_i s1 h1
      have hcap : c.cap = 10 := by
        obtain ⟨c2, hc2, hcap2⟩ := hs.sub C h hmem
        rw [hc] at hc2
        simp only [Option.some.injEq] at hc2
        subst hc2
        exact hcap2
      obtain ⟨hmem1, hc1⟩ := sub_step s s1 hs e h1 C h hmem c hc
      obtain ⟨P, hP1, _, hP2, hP3⟩ := subEffect_spec s C h c e hcap
      obtain ⟨hmemf, cf, L, hcf, hw, hsub, hexact⟩ :=
        ih s1 (inv_step s s1 hs e h1) hex hmem1 _ hc1
      rw [dispatched_cons s s1 e es h1, ofCategory_append]
      refine ⟨hmemf, cf, P ++ L, hcf, ?_, List.Sublist.append hP2 hsub, ?_⟩
      · rw [hw, hP1, List.append_assoc]
      · intro hnr hlen
        simp only [List.mem_cons, not_or] at hnr
        simp only [List.length_append] at hlen
        obtain ⟨hPeq, hbuf⟩ := hP3 (fun x => hnr.1 x.symm) (by omega)
        have hlen1 : (subEffect s C h c e).buf.length
            + (ofCategory C (dispatched s1 es)).length ≤ 10 := by
          rw [hbuf, hPeq, List.length_append]
          omega
        obtain ⟨hLeq, hbuff⟩ := hexact hnr.2 hlen1
        refine ⟨by rw [hPeq, hLeq], ?_⟩
        rw [hbuff, hbuf, List.append_assoc]
    · simp at hex

theorem exec_append (pre post : List Event) (s sf : Client)
    (h : exec s (pre ++ post) = some sf) :
    ∃ sm, exec s pre = some sm ∧ exec sm post = some sf := by
  induction pre generalizing s with
  | nil => exact ⟨s, rfl, h⟩
  | cons e es ih =>
    simp only [List.cons_append, exec] at h ⊢
    split at h
    · rename_i s1 h1
      exact ih s1 h
    · simp at h

/-- C2: for the handle returned by Subscribe(C) on a well-formed client and every history
that follows, the frames written to the handle form a subsequence, in processing order, of the
dispatched frames of category C, all of them of category C; a frame of category C dispatched
at a moment when the handle holds fewer than 10 unread frames is written to it; and when the
handle is never read and at most 10 frames of category C are dispatched, the handle holds
exactly those frames in dispatch order. -/
theorem subscription_delivery (s0 : Client) (hs : Inv s0) (C : String) (evs : List Event)
    (sf : Client) (hex : exec (Subscribe s0 C).1 evs = some sf) :
    ∃ cf, sf.chans[(Subscribe s0 C).2]? = some cf ∧
      cf.written.Sublist (ofCategory C (dispatched (Subscribe s0 C).1 evs)) ∧
      (∀ f ∈ cf.written, f.CommandType = C) ∧
      (∀ (pre post : List Event) (r : Response) (sm : Client) (cm : Chan),
        evs = pre ++ Event.frame r :: post → exec (Subscribe s0 C).1 pre = some sm →
        sm.runLive = true → r.CommandType = C →
        sm.chans[(Subscribe s0 C).2]? = some cm → cm.buf.length < 10 →
        ∃ L2, cf.written = cm.written ++ r :: L2) ∧
      (Event.recv (Subscribe s0 C).2 ∉ evs →
        (ofCategory C (dispatched (Subscribe s0 C).1 evs)).length ≤ 10 →
        cf.buf = ofCategory C (dispatched (Subscribe s0 C).1 evs) ∧
        cf.written = ofCategory C (dispatched (Subscribe s0 C).1 evs)) := by
  have hinv : Inv (Subscribe s0 C).1 := inv_Subscribe s0 hs C
  have hmem : (Subscribe s0 C).2 ∈ (Subscribe s0 C).1.subs C := by
    simp [Subscribe]
  have hc : (Subscribe s0 C).1.chans[(Subscribe s0 C).2]? = some (Chan.make 10) := by
    simp [Subscribe]
  obtain ⟨_, cf, L, hcf, hw, hsub, hexact⟩ :=
    sub_history evs _ sf hinv hex C _ hmem _ hc
  have hwL : cf.written = L := by
    rw [hw]
    simp [Chan.make]
  refine ⟨cf, hcf, by rw [hwL]; exact hsub, ?_, ?_, ?_⟩
  · intro f hf
    rw [hwL] at hf
    have h2 := hsub.subset hf
    simp only [ofCategory, List.mem_filter, decide_eq_true_eq] at h2
    exact h2.2
  · intro pre post r sm cm hsplit hpre hlive hct hcm hroom
    subst hsplit
    obtain ⟨sm2, hpre2, hpost⟩ := exec_append pre _ _ sf hex
    rw [hpre] at hpre2
    simp only [Option.some.injEq] at hpre2
    subst hpre2
    have hinvm : Inv sm := inv_exec pre _ sm hinv hpre
    have hmemm := (sub_history pre _ sm hinv hpre C _ hmem _ hc).1
    have hcapm : cm.cap = 10 := by
      obtain ⟨c2, hc2, hcap2⟩ := hinvm.sub C _ hmemm
      rw [hcm] at hc2
      simp only [Option.some.injEq] at hc2
      subst hc2
      exact hcap2
    simp only [exec] at hpost
    split at hpost
    · rename_i sm1 hstep
      obtain ⟨hmem1, hc1⟩ := sub_step sm sm1 hinvm _ hstep C _ hmemm cm hcm
      obtain ⟨_, cf2, L2, hcf2, hw2, _, _⟩ :=
        sub_history post sm1 sf (inv_step sm sm1 hinvm _ hstep) hpost C _ hmem1 _ hc1
      rw [hcf] at hcf2
      simp only [Option.some.injEq] at hcf2
      subst hcf2
      refine ⟨L2, ?_⟩
      rw [hw2]
      have hroom2 : cm.buf.length < cm.cap := by omega
      simp [subEffect, hlive, hct, Chan.deliver, hroom2, Chan.push]
    · simp at hpost
  · intro hnr hlen
    obtain ⟨hL, hbuf⟩ := hexact hnr (by simpa [Chan.make] using hlen)
    refine ⟨?_, by rw [hwL, hL]⟩
    rw [hbuf, hL]
    simp [Chan.make]

/-- Witness for C2: a new client, one subscriber of DeviceList, one DeviceList frame. -/
theorem subscription_delivery_witness :
    exec (Subscribe NewClient "DeviceList").1 [Event.frame frameA]
      = some (fanout subscribedClient frameA) ∧
    ∃ cf, (fanout subscribedClient frameA).chans[0]? = some cf ∧ cf.buf = [frameA] := by
  have hex : exec (Subscribe NewClient "DeviceList").1 [Event.frame frameA]
      = some (fanout subscribedClient frameA) := by rfl
  obtain ⟨cf, hcf, _, _, _, h5⟩ :=
    subscription_delivery NewClient inv_NewClient "DeviceList" [Event.frame frameA] _ hex
  refine ⟨hex, cf, hcf, ?_⟩
  have hd : ofCategory "DeviceList"
      (dispatched (Subscribe NewClient "DeviceList").1 [Event.frame frameA]) = [frameA] := by
    decide
  have h6 := h5 (by decide) (by rw [hd]; decide)
  rw [h6.1, hd]

end Marzipan
